import Mathlib

/-!
Verification development for the Zero of Functions (ZOF) solver, module
`methods.py`.  Python floats are embedded as exact rationals; the values of
the transcendental library functions (`sin`, `log`, ...) are represented by
computable rational stand-ins, and no theorem below depends on those values:
only their domain-error behaviour (which is what the specification talks
about) is modelled faithfully.  Python exceptions are embedded as an explicit
error type threaded through `Except`.
-/

/-- Exceptions that can be raised while evaluating a compiled expression
(the exceptions caught by the `try` block inside `func` in `parse_function`). -/
inductive PyExc where
  | nameError (name : String)
  | zeroDivisionError
  | typeError (msg : String)
  | attributeError (field : String)
  | valueErrorExc (msg : String)
  deriving DecidableEq, Repr

/-- Errors surfacing from the embedded module.  `functionParserEval` models
`FunctionParserError(f"Error evaluating expression at x={x}: {exc}")`
(methods.py line 46), which carries the triggering `x` and the underlying
cause; `functionParserComplex` models the fixed-message
`FunctionParserError("Expression evaluated to a complex number; real value
expected.")` (line 48), which carries neither.  `raised` models an exception
escaping unwrapped (e.g. from the `float(value)` conversion, which sits
outside the `try` block).  `unboundLocal` models Python's
`UnboundLocalError` on reading a never-assigned local. -/
inductive PyError where
  | functionParserEmpty
  | functionParserSyntax (msg : String)
  | functionParserEval (x : ℚ) (cause : PyExc)
  | functionParserComplex
  | valueError (msg : String)
  | raised (exc : PyExc)
  | unboundLocal
  deriving DecidableEq, Repr

/-- Is the error one of the `FunctionParserError`s raised by `parse_function`
or by the closure it returns? -/
def isFunctionParserError : PyError → Bool
  | .functionParserEmpty => true
  | .functionParserSyntax _ => true
  | .functionParserEval _ _ => true
  | .functionParserComplex => true
  | _ => false

/-- Does the error message embed the triggering `x` (and the underlying
cause)?  In the source only the wrapper on line 46 interpolates `x` and the
caught exception into the message; the complex-result error on line 48 is a
fixed string. -/
def carriesTriggeringX : PyError → Bool
  | .functionParserEval _ _ => true
  | _ => false

/-- Python runtime values reachable from the restricted expression grammar:
floats (exact rationals here), complex numbers, strings, pairs, and the
allow-listed math callables (identified by name). -/
inductive PyVal where
  | float (q : ℚ)
  | complexVal (re im : ℚ)
  | str (s : String)
  | tuple2 (a b : PyVal)
  | mathFn (name : String)
  deriving DecidableEq, Repr

/-- `isinstance(value, complex)`. -/
def isComplexVal : PyVal → Bool
  | .complexVal _ _ => true
  | _ => false

/-- Rational stand-in for `math.sqrt`: only its domain behaviour matters. -/
def ratSqrt (q : ℚ) : ℚ := (Int.sqrt (q.num * (q.den : ℤ)) : ℚ) / (q.den : ℚ)

/-- Rational stand-in for `math.log` (value never used by a theorem). -/
def ratLog (q : ℚ) : ℚ := (q - 1) - (q - 1) ^ 2 / 2

/-- Rational stand-in for `math.sin` (value never used by a theorem). -/
def ratSin (q : ℚ) : ℚ := q - q ^ 3 / 6

/-- Rational stand-in for `math.cos` (value never used by a theorem). -/
def ratCos (q : ℚ) : ℚ := 1 - q ^ 2 / 2

/-- Rational stand-in for `math.tan` (value never used by a theorem). -/
def ratTan (q : ℚ) : ℚ := ratSin q / ratCos q

/-- Rational stand-in for `math.exp` (value never used by a theorem). -/
def ratExp (q : ℚ) : ℚ := 1 + q + q ^ 2 / 2 + q ^ 3 / 6

/-- Rational stand-in for a non-integral float power (value never used). -/
def ratPowNI (p q : ℚ) : ℚ := ratExp (q * ratLog |p|)

/-- The allow-list built by `parse_function` (methods.py lines 33-34):
`{name: getattr(math, name) for name in dir(math)} | {"abs": abs}`,
modelled by a representative subset of `dir(math)` — constants as rational
approximations, callables as named `mathFn` values.  Crucially it contains
neither `os` nor any other non-math identifier. -/
def allowedNames : List (String × PyVal) := [
  ("pi", .float (3141592653589793 / 1000000000000000)),
  ("e", .float (2718281828459045 / 1000000000000000)),
  ("tau", .float (6283185307179586 / 1000000000000000)),
  ("sqrt", .mathFn ("sqrt")),
  ("log", .mathFn ("log")),
  ("sin", .mathFn ("sin")),
  ("cos", .mathFn ("cos")),
  ("tan", .mathFn ("tan")),
  ("exp", .mathFn ("exp")),
  ("fabs", .mathFn ("fabs")),
  ("floor", .mathFn ("floor")),
  ("ceil", .mathFn ("ceil")),
  ("pow", .mathFn ("pow")),
  ("abs", .mathFn ("abs"))]

/-- Python message for `math domain error` (`ValueError` raised by `math`). -/
def mathDomainMsg : String := "math domain error"

/-- Application of an allow-listed callable to one evaluated argument,
modelling the behaviour of the `math` functions (and builtin `abs`):
domain errors raise `ValueError("math domain error")`, wrong operand types
raise `TypeError`.  Calls are modelled with exactly one argument, so the
two-argument `pow` is only represented by its arity failure. -/
def applyMath (name : String) (v : PyVal) : Except PyExc PyVal :=
  match name, v with
  | "sqrt", .float q =>
      if q < 0 then .error (.valueErrorExc mathDomainMsg) else .ok (.float (ratSqrt q))
  | "log", .float q =>
      if q ≤ 0 then .error (.valueErrorExc mathDomainMsg) else .ok (.float (ratLog q))
  | "sin", .float q => .ok (.float (ratSin q))
  | "cos", .float q => .ok (.float (ratCos q))
  | "tan", .float q => .ok (.float (ratTan q))
  | "exp", .float q => .ok (.float (ratExp q))
  | "fabs", .float q => .ok (.float |q|)
  | "abs", .float q => .ok (.float |q|)
  | "floor", .float q => .ok (.float (Int.floor q : ℤ))
  | "ceil", .float q => .ok (.float (Int.ceil q : ℤ))
  | "pow", _ => .error (.typeError ("pow expected 2 arguments, got 1"))
  | _, _ => .error (.typeError ("must be real number"))

/-- Calling an evaluated value: only the allow-listed callables are callable. -/
def pyCall (f : PyVal) (arg : PyVal) : Except PyExc PyVal :=
  match f with
  | .mathFn n => applyMath n arg
  | _ => .error (.typeError ("object is not callable"))

/-- Attribute access on an evaluated value.  Python floats expose `real`
(the float itself) and `imag` (`0.0`); complex values expose their parts;
other attribute lookups in the modelled grammar raise `AttributeError`. -/
def pyAttr (v : PyVal) (field : String) : Except PyExc PyVal :=
  match v, field with
  | .float q, "real" => .ok (.float q)
  | .float _, "imag" => .ok (.float 0)
  | .complexVal re _, "real" => .ok (.float re)
  | .complexVal _ im, "imag" => .ok (.float im)
  | _, f => .error (.attributeError f)

/-- Unary minus. -/
def pyNeg : PyVal → Except PyExc PyVal
  | .float q => .ok (.float (-q))
  | .complexVal re im => .ok (.complexVal (-re) (-im))
  | _ => .error (.typeError ("bad operand type for unary minus"))

/-- Binary `+` on numeric values (non-numeric operands modelled as
`TypeError`). -/
def pyAdd : PyVal → PyVal → Except PyExc PyVal
  | .float p, .float q => .ok (.float (p + q))
  | .float p, .complexVal re im => .ok (.complexVal (p + re) im)
  | .complexVal re im, .float q => .ok (.complexVal (re + q) im)
  | .complexVal a b, .complexVal c d => .ok (.complexVal (a + c) (b + d))
  | _, _ => .error (.typeError ("unsupported operand types for +"))

/-- Binary `-`. -/
def pySub : PyVal → PyVal → Except PyExc PyVal
  | .float p, .float q => .ok (.float (p - q))
  | .float p, .complexVal re im => .ok (.complexVal (p - re) (-im))
  | .complexVal re im, .float q => .ok (.complexVal (re - q) im)
  | .complexVal a b, .complexVal c d => .ok (.complexVal (a - c) (b - d))
  | _, _ => .error (.typeError ("unsupported operand types for -"))

/-- Binary `*`. -/
def pyMul : PyVal → PyVal → Except PyExc PyVal
  | .float p, .float q => .ok (.float (p * q))
  | .float p, .complexVal re im => .ok (.complexVal (p * re) (p * im))
  | .complexVal re im, .float q => .ok (.complexVal (re * q) (im * q))
  | .complexVal a b, .complexVal c d => .ok (.complexVal (a * c - b * d) (a * d + b * c))
  | _, _ => .error (.typeError ("unsupported operand types for *"))

/-- Binary `/` with Python's `ZeroDivisionError` on a zero denominator. -/
def pyDiv : PyVal → PyVal → Except PyExc PyVal
  | .float p, .float q =>
      if q = 0 then .error .zeroDivisionError else .ok (.float (p / q))
  | .complexVal a b, .float q =>
      if q = 0 then .error .zeroDivisionError else .ok (.complexVal (a / q) (b / q))
  | .float p, .complexVal c d =>
      if c ^ 2 + d ^ 2 = 0 then .error .zeroDivisionError
      else .ok (.complexVal (p * c / (c ^ 2 + d ^ 2)) (-(p * d) / (c ^ 2 + d ^ 2)))
  | .complexVal a b, .complexVal c d =>
      if c ^ 2 + d ^ 2 = 0 then .error .zeroDivisionError
      else .ok (.complexVal ((a * c + b * d) / (c ^ 2 + d ^ 2)) ((b * c - a * d) / (c ^ 2 + d ^ 2)))
  | _, _ => .error (.typeError ("unsupported operand types for /"))

/-- Binary `**` on floats: exact for integral exponents (with Python's
`ZeroDivisionError` for `0.0 ** negative`), and for non-integral exponents a
stand-in value — complex when the base is negative, mirroring Python's
promotion to complex (the numeric value of the stand-in is never used by a
theorem).  Complex operands are outside the modelled fragment. -/
def pyPow : PyVal → PyVal → Except PyExc PyVal
  | .float p, .float q =>
      if q.den = 1 then
        if p = 0 ∧ q < 0 then .error .zeroDivisionError
        else .ok (.float (p ^ q.num))
      else if p < 0 then .ok (.complexVal 0 (ratPowNI (|p|) q))
      else .ok (.float (ratPowNI p q))
  | _, _ => .error (.typeError ("unsupported operand types for **"))

/-- Abstract syntax of the expression fragment accepted by
`compile(expression, "<user_function>", "eval")` that this development
models: number/imaginary/string literals, identifiers, unary minus, the four
arithmetic operators and exponentiation, attribute access, one-argument
calls, and pairs. -/
inductive PyExpr where
  | num (q : ℚ)
  | imag (q : ℚ)
  | strLit (s : String)
  | name (s : String)
  | neg (e : PyExpr)
  | add (a b : PyExpr)
  | sub (a b : PyExpr)
  | mul (a b : PyExpr)
  | div (a b : PyExpr)
  | pow (a b : PyExpr)
  | attr (e : PyExpr) (field : String)
  | call (f : PyExpr) (arg : PyExpr)
  | pair (a b : PyExpr)
  deriving DecidableEq, Repr

/-- Name resolution in `eval(compiled, {"__builtins__": {}}, local_context)`
with `local_context = {**allowed_names, "x": x}`: `x` resolves to the
argument, allow-listed names to their values, and anything else raises
`NameError` (globals contain no builtins). -/
def evalName (env : List (String × PyVal)) (x : ℚ) (s : String) : Except PyExc PyVal :=
  if s = "x" then .ok (.float x)
  else
    match env.lookup s with
    | some v => .ok v
    | none => .error (.nameError s)

/-- Evaluation of a compiled expression at a concrete `x`, mirroring
Python's strict left-to-right evaluation; the first exception aborts the
whole evaluation. -/
def evalExpr (env : List (String × PyVal)) (x : ℚ) : PyExpr → Except PyExc PyVal
  | .num q => .ok (.float q)
  | .imag q => .ok (.complexVal 0 q)
  | .strLit s => .ok (.str s)
  | .name s => evalName env x s
  | .neg e =>
      match evalExpr env x e with
      | .error exc => .error exc
      | .ok v => pyNeg v
  | .add a b =>
      match evalExpr env x a with
      | .error exc => .error exc
      | .ok va =>
          match evalExpr env x b with
          | .error exc => .error exc
          | .ok vb => pyAdd va vb
  | .sub a b =>
      match evalExpr env x a with
      | .error exc => .error exc
      | .ok va =>
          match evalExpr env x b with
          | .error exc => .error exc
          | .ok vb => pySub va vb
  | .mul a b =>
      match evalExpr env x a with
      | .error exc => .error exc
      | .ok va =>
          match evalExpr env x b with
          | .error exc => .error exc
          | .ok vb => pyMul va vb
  | .div a b =>
      match evalExpr env x a with
      | .error exc => .error exc
      | .ok va =>
          match evalExpr env x b with
          | .error exc => .error exc
          | .ok vb => pyDiv va vb
  | .pow a b =>
      match evalExpr env x a with
      | .error exc => .error exc
      | .ok va =>
          match evalExpr env x b with
          | .error exc => .error exc
          | .ok vb => pyPow va vb
  | .attr e f =>
      match evalExpr env x e with
      | .error exc => .error exc
      | .ok v => pyAttr v f
  | .call f a =>
      match evalExpr env x f with
      | .error exc => .error exc
      | .ok vf =>
          match evalExpr env x a with
          | .error exc => .error exc
          | .ok va => pyCall vf va
  | .pair a b =>
      match evalExpr env x a with
      | .error exc => .error exc
      | .ok va =>
          match evalExpr env x b with
          | .error exc => .error exc
          | .ok vb => .ok (.tuple2 va vb)

/-- The source text handed to `parse_function`, as classified by
`expression.strip()` and `compile(expression, "<user_function>", "eval")`:
empty after stripping, rejected by the parser with a `SyntaxError`
(statements, assignments, function definitions, malformed text), or a
well-formed expression. -/
inductive PySource where
  | empty
  | invalidSyntax (msg : String)
  | expr (e : PyExpr)
  deriving DecidableEq, Repr

/-- The closure returned by `parse_function`: the compiled expression
together with the `allowed_names` mapping it captured. -/
structure ParsedFunction where
  compiled : PyExpr
  captured : List (String × PyVal)
  deriving DecidableEq, Repr

/-- `float(value)` applied to the result of a successful evaluation.  This
conversion happens on line 49, OUTSIDE the `try` block, so its exceptions
escape unwrapped. -/
def pyFloat : PyVal → Except PyExc ℚ
  | .float q => .ok q
  | .complexVal _ _ => .error (.typeError ("cannot convert complex to float"))
  | .str _ => .error (.valueErrorExc ("could not convert string to float"))
  | .tuple2 _ _ => .error (.typeError ("float argument must be a string or a real number, not tuple"))
  | .mathFn _ => .error (.typeError ("float argument must be a string or a real number, not builtin function"))

/-- `parse_function` (methods.py lines 26-51): reject the empty expression,
reject anything `compile` cannot parse as an expression, and otherwise
return the closure over the compiled code and the captured allow-list. -/
def parse_function : PySource → Except PyError ParsedFunction
  | .empty => .error .functionParserEmpty
  | .invalidSyntax msg => .error (.functionParserSyntax msg)
  | .expr e => .ok ⟨e, allowedNames⟩

/-- The inner `func(x)` closure (methods.py lines 41-49): evaluate the
compiled expression with the captured names plus `x`; any exception from the
evaluation is wrapped into `FunctionParserError(f"Error evaluating
expression at x={x}: {exc}")`; a complex result raises the fixed-message
`FunctionParserError`; finally `float(value)` runs outside the `try`, its
exceptions escaping unwrapped. -/
def funcCall (p : ParsedFunction) (x : ℚ) : Except PyError ℚ :=
  match evalExpr p.captured x p.compiled with
  | .error exc => .error (.functionParserEval x exc)
  | .ok value =>
      if isComplexVal value then .error .functionParserComplex
      else
        match pyFloat value with
        | .ok q => .ok q
        | .error exc => .error (.raised exc)

/-- Is an identifier resolvable in the evaluation context (`x` or an
allow-listed name)? -/
def knownName (s : String) : Bool :=
  s = "x" || (allowedNames.lookup s).isSome

/-- Does the expression mention an identifier outside the vocabulary
(anything but `x` and the allow-list)? -/
def mentionsUnknown : PyExpr → Bool
  | .num _ => false
  | .imag _ => false
  | .strLit _ => false
  | .name s => !knownName s
  | .neg e => mentionsUnknown e
  | .add a b => mentionsUnknown a || mentionsUnknown b
  | .sub a b => mentionsUnknown a || mentionsUnknown b
  | .mul a b => mentionsUnknown a || mentionsUnknown b
  | .div a b => mentionsUnknown a || mentionsUnknown b
  | .pow a b => mentionsUnknown a || mentionsUnknown b
  | .attr e _ => mentionsUnknown e
  | .call f a => mentionsUnknown f || mentionsUnknown a
  | .pair a b => mentionsUnknown a || mentionsUnknown b

/-- The expression `os.system("x")` from the spec's error-case table. -/
def osSystemExpr : PyExpr := .call (.attr (.name ("os")) ("system")) (.strLit ("x"))

/-- The expression `x.real`. -/
def xRealExpr : PyExpr := .attr (.name ("x")) ("real")

/-- One entry of the iteration trace, `_build_iteration` (methods.py lines
54-60): iteration index, current estimate `xn`, function value `fxn`, and
the error metric for the step. -/
structure IterRec where
  iteration : ℕ
  xn : ℚ
  fxn : ℚ
  error : ℚ
  deriving DecidableEq, Repr

/-- `MethodResult` (methods.py lines 12-19). -/
structure MethodResult where
  iterations : List IterRec
  root : ℚ
  error : ℚ
  iterations_used : ℤ
  deriving DecidableEq, Repr

/-- The message of the bisection bracket-precondition `ValueError`. -/
def bisectionBracketMsg : String := "Bisection requires f(a) and f(b) to have opposite signs."

/-- The message of the regula-falsi bracket-precondition `ValueError`. -/
def regulaBracketMsg : String := "Regula Falsi requires f(a) and f(b) to have opposite signs."

/-- The message of the secant zero-denominator `ValueError`. -/
def secantDenomMsg : String := "Secant method encountered zero denominator; choose different initial guesses."

/-- The message of the Newton-Raphson zero-derivative `ValueError`. -/
def newtonDerivMsg : String := "Derivative is zero; Newton-Raphson cannot proceed."

/-- The message of the modified-secant zero-delta `ValueError`. -/
def modSecDeltaMsg : String := "Delta must be non-zero for the modified secant method."

/-- The message of the modified-secant zero-denominator `ValueError`. -/
def modSecDenomMsg : String := "Modified secant encountered zero denominator; adjust delta or initial guess."

/-- The `for iteration in range(1, max_iter + 1)` loop of `bisection`
(methods.py lines 70-86).  `rem` is the number of loop passes left, `it` the
next value of `iteration`, `acc` the `iterations` list built so far, and
`last` the values of the locals `c` and `error` from the previous pass
(`none` when the loop body has not yet run, so that the final
`return MethodResult(iterations, c, error, max_iter)` raises
`UnboundLocalError`). -/
def bisectionLoop (func : ℚ → Except PyError ℚ) (tol : ℚ) (M : ℤ) :
    ℕ → ℚ → ℚ → ℚ → ℚ → ℕ → List IterRec → Option (ℚ × ℚ) → Except PyError MethodResult
  | 0, _, _, _, _, _, _, none => .error .unboundLocal
  | 0, _, _, _, _, _, acc, some (c, e) => .ok ⟨acc, c, e, M⟩
  | rem + 1, a, b, fa, fb, it, acc, _ =>
      match func ((a + b) / 2) with
      | .error exc => .error exc
      | .ok fc =>
          if |b - a| / 2 < tol ∨ |fc| < tol then
            .ok ⟨acc ++ [⟨it, (a + b) / 2, fc, |b - a| / 2⟩], (a + b) / 2, |b - a| / 2, (it : ℤ)⟩
          else if fa * fc < 0 then
            bisectionLoop func tol M rem a ((a + b) / 2) fa fc (it + 1)
              (acc ++ [⟨it, (a + b) / 2, fc, |b - a| / 2⟩]) (some ((a + b) / 2, |b - a| / 2))
          else
            bisectionLoop func tol M rem ((a + b) / 2) b fc fb (it + 1)
              (acc ++ [⟨it, (a + b) / 2, fc, |b - a| / 2⟩]) (some ((a + b) / 2, |b - a| / 2))

/-- `bisection` (methods.py lines 63-86). -/
def bisection (func : ℚ → Except PyError ℚ) (a b tol : ℚ) (max_iter : ℤ) :
    Except PyError MethodResult :=
  match func a with
  | .error exc => .error exc
  | .ok fa =>
      match func b with
      | .error exc => .error exc
      | .ok fb =>
          if fa * fb ≥ 0 then .error (.valueError bisectionBracketMsg)
          else bisectionLoop func tol max_iter max_iter.toNat a b fa fb 1 [] none

/-- The loop of `regula_falsi` (methods.py lines 97-113).  The division on
line 98 raises `ZeroDivisionError` when `fb - fa` is zero.  The local `c`
is initialised before the loop, but the final return still reads the
never-assigned `error` when the loop body never ran, so that case is
`UnboundLocalError` just as for `bisection`. -/
def regulaLoop (func : ℚ → Except PyError ℚ) (tol : ℚ) (M : ℤ) :
    ℕ → ℚ → ℚ → ℚ → ℚ → ℕ → List IterRec → Option (ℚ × ℚ) → Except PyError MethodResult
  | 0, _, _, _, _, _, _, none => .error .unboundLocal
  | 0, _, _, _, _, _, acc, some (c, e) => .ok ⟨acc, c, e, M⟩
  | rem + 1, a, b, fa, fb, it, acc, _ =>
      if fb - fa = 0 then .error (.raised .zeroDivisionError)
      else
        match func ((a * fb - b * fa) / (fb - fa)) with
        | .error exc => .error exc
        | .ok fc =>
          if |fc| < tol ∨ |fc| < tol then
            .ok ⟨acc ++ [⟨it, (a * fb - b * fa) / (fb - fa), fc, |fc|⟩],
                 (a * fb - b * fa) / (fb - fa), |fc|, (it : ℤ)⟩
          else if fa * fc < 0 then
            regulaLoop func tol M rem a ((a * fb - b * fa) / (fb - fa)) fa fc (it + 1)
              (acc ++ [⟨it, (a * fb - b * fa) / (fb - fa), fc, |fc|⟩])
              (some ((a * fb - b * fa) / (fb - fa), |fc|))
          else
            regulaLoop func tol M rem ((a * fb - b * fa) / (fb - fa)) b fc fb (it + 1)
              (acc ++ [⟨it, (a * fb - b * fa) / (fb - fa), fc, |fc|⟩])
              (some ((a * fb - b * fa) / (fb - fa), |fc|))

/-- `regula_falsi` (methods.py lines 89-113). -/
def regula_falsi (func : ℚ → Except PyError ℚ) (a b tol : ℚ) (max_iter : ℤ) :
    Except PyError MethodResult :=
  match func a with
  | .error exc => .error exc
  | .ok fa =>
      match func b with
      | .error exc => .error exc
      | .ok fb =>
          if fa * fb ≥ 0 then .error (.valueError regulaBracketMsg)
          else regulaLoop func tol max_iter max_iter.toNat a b fa fb 1 [] none

/-- The loop of `secant` (methods.py lines 121-137).  The source calls
`func(next_x)` twice per pass: once for the recorded `fxn` and once in the
stopping test; both calls are mirrored.  On exhaustion the source returns
the local `curr` (equal to the last `next_x`) and the last `error`. -/
def secantLoop (func : ℚ → Except PyError ℚ) (tol : ℚ) (M : ℤ) :
    ℕ → ℚ → ℚ → ℕ → List IterRec → Option (ℚ × ℚ) → Except PyError MethodResult
  | 0, _, _, _, _, none => .error .unboundLocal
  | 0, _, _, _, acc, some (c, e) => .ok ⟨acc, c, e, M⟩
  | rem + 1, prev, curr, it, acc, _ =>
      match func prev with
      | .error exc => .error exc
      | .ok f_prev =>
          match func curr with
          | .error exc => .error exc
          | .ok f_curr =>
              if f_curr - f_prev = 0 then .error (.valueError secantDenomMsg)
              else
                match func (curr - f_curr * (curr - prev) / (f_curr - f_prev)) with
                | .error exc => .error exc
                | .ok f_next =>
                    match func (curr - f_curr * (curr - prev) / (f_curr - f_prev)) with
                    | .error exc => .error exc
                    | .ok f_next2 =>
                        if |curr - f_curr * (curr - prev) / (f_curr - f_prev) - curr| < tol ∨
                            |f_next2| < tol then
                          .ok ⟨acc ++ [⟨it, curr - f_curr * (curr - prev) / (f_curr - f_prev),
                                f_next, |curr - f_curr * (curr - prev) / (f_curr - f_prev) - curr|⟩],
                              curr - f_curr * (curr - prev) / (f_curr - f_prev),
                              |curr - f_curr * (curr - prev) / (f_curr - f_prev) - curr|, (it : ℤ)⟩
                        else
                          secantLoop func tol M rem curr
                            (curr - f_curr * (curr - prev) / (f_curr - f_prev)) (it + 1)
                            (acc ++ [⟨it, curr - f_curr * (curr - prev) / (f_curr - f_prev),
                                f_next, |curr - f_curr * (curr - prev) / (f_curr - f_prev) - curr|⟩])
                            (some (curr - f_curr * (curr - prev) / (f_curr - f_prev),
                                |curr - f_curr * (curr - prev) / (f_curr - f_prev) - curr|))

/-- `secant` (methods.py lines 116-137). -/
def secant (func : ℚ → Except PyError ℚ) (x0 x1 tol : ℚ) (max_iter : ℤ) :
    Except PyError MethodResult :=
  secantLoop func tol max_iter max_iter.toNat x0 x1 1 [] none

/-- The loop of `newton_raphson` (methods.py lines 144-159); `func(next_x)`
is likewise called twice per pass. -/
def newtonLoop (func derivative : ℚ → Except PyError ℚ) (tol : ℚ) (M : ℤ) :
    ℕ → ℚ → ℕ → List IterRec → Option (ℚ × ℚ) → Except PyError MethodResult
  | 0, _, _, _, none => .error .unboundLocal
  | 0, _, _, acc, some (c, e) => .ok ⟨acc, c, e, M⟩
  | rem + 1, current, it, acc, _ =>
      match func current with
      | .error exc => .error exc
      | .ok f_val =>
          match derivative current with
          | .error exc => .error exc
          | .ok derivative_val =>
              if derivative_val = 0 then .error (.valueError newtonDerivMsg)
              else
                match func (current - f_val / derivative_val) with
                | .error exc => .error exc
                | .ok f_next =>
                    match func (current - f_val / derivative_val) with
                    | .error exc => .error exc
                    | .ok f_next2 =>
                        if |current - f_val / derivative_val - current| < tol ∨ |f_next2| < tol then
                          .ok ⟨acc ++ [⟨it, current - f_val / derivative_val, f_next,
                                |current - f_val / derivative_val - current|⟩],
                              current - f_val / derivative_val,
                              |current - f_val / derivative_val - current|, (it : ℤ)⟩
                        else
                          newtonLoop func derivative tol M rem (current - f_val / derivative_val)
                            (it + 1)
                            (acc ++ [⟨it, current - f_val / derivative_val, f_next,
                                |current - f_val / derivative_val - current|⟩])
                            (some (current - f_val / derivative_val,
                                |current - f_val / derivative_val - current|))

/-- `newton_raphson` (methods.py lines 140-159). -/
def newton_raphson (func derivative : ℚ → Except PyError ℚ) (x0 tol : ℚ) (max_iter : ℤ) :
    Except PyError MethodResult :=
  newtonLoop func derivative tol max_iter max_iter.toNat x0 1 [] none

/-- The loop of `fixed_point` (methods.py lines 166-177): the recorded
function value is the displacement `next_x - current`, the error is its
absolute value, and the only stopping test is `error < tol`. -/
def fixedPointLoop (g_func : ℚ → Except PyError ℚ) (tol : ℚ) (M : ℤ) :
    ℕ → ℚ → ℕ → List IterRec → Option (ℚ × ℚ) → Except PyError MethodResult
  | 0, _, _, _, none => .error .unboundLocal
  | 0, _, _, acc, some (c, e) => .ok ⟨acc, c, e, M⟩
  | rem + 1, current, it, acc, _ =>
      match g_func current with
      | .error exc => .error exc
      | .ok next_x =>
          if |next_x - current| < tol then
            .ok ⟨acc ++ [⟨it, next_x, next_x - current, |next_x - current|⟩], next_x,
                |next_x - current|, (it : ℤ)⟩
          else
            fixedPointLoop g_func tol M rem next_x (it + 1)
              (acc ++ [⟨it, next_x, next_x - current, |next_x - current|⟩])
              (some (next_x, |next_x - current|))

/-- `fixed_point` (methods.py lines 162-177). -/
def fixed_point (g_func : ℚ → Except PyError ℚ) (x0 tol : ℚ) (max_iter : ℤ) :
    Except PyError MethodResult :=
  fixedPointLoop g_func tol max_iter max_iter.toNat x0 1 [] none

/-- The loop of `modified_secant` (methods.py lines 187-202); `func(next_x)`
is called twice per pass, as in the source. -/
def modSecantLoop (func : ℚ → Except PyError ℚ) (delta tol : ℚ) (M : ℤ) :
    ℕ → ℚ → ℕ → List IterRec → Option (ℚ × ℚ) → Except PyError MethodResult
  | 0, _, _, _, none => .error .unboundLocal
  | 0, _, _, acc, some (c, e) => .ok ⟨acc, c, e, M⟩
  | rem + 1, current, it, acc, _ =>
      match func current with
      | .error exc => .error exc
      | .ok f_current =>
          match func (current + delta * current) with
          | .error exc => .error exc
          | .ok f_shift =>
              if f_shift - f_current = 0 then .error (.valueError modSecDenomMsg)
              else
                match func (current - delta * current * f_current / (f_shift - f_current)) with
                | .error exc => .error exc
                | .ok f_next =>
                    match func (current - delta * current * f_current / (f_shift - f_current)) with
                    | .error exc => .error exc
                    | .ok f_next2 =>
                        if |current - delta * current * f_current / (f_shift - f_current) - current| < tol ∨
                            |f_next2| < tol then
                          .ok ⟨acc ++ [⟨it, current - delta * current * f_current / (f_shift - f_current),
                                f_next,
                                |current - delta * current * f_current / (f_shift - f_current) - current|⟩],
                              current - delta * current * f_current / (f_shift - f_current),
                              |current - delta * current * f_current / (f_shift - f_current) - current|,
                              (it : ℤ)⟩
                        else
                          modSecantLoop func delta tol M rem
                            (current - delta * current * f_current / (f_shift - f_current)) (it + 1)
                            (acc ++ [⟨it, current - delta * current * f_current / (f_shift - f_current),
                                f_next,
                                |current - delta * current * f_current / (f_shift - f_current) - current|⟩])
                            (some (current - delta * current * f_current / (f_shift - f_current),
                                |current - delta * current * f_current / (f_shift - f_current) - current|))

/-- `modified_secant` (methods.py lines 180-202). -/
def modified_secant (func : ℚ → Except PyError ℚ) (x0 delta tol : ℚ) (max_iter : ℤ) :
    Except PyError MethodResult :=
  if delta = 0 then .error (.valueError modSecDeltaMsg)
  else modSecantLoop func delta tol max_iter max_iter.toNat x0 1 [] none

/-- Lift a total real function to the fallible calling convention the
algorithms use (an evaluated function that never raises). -/
def totalFn (F : ℚ → ℚ) : ℚ → Except PyError ℚ := fun q => .ok (F q)

/-- Appending one record to a trace makes it the last one. -/
theorem getLast?_append_singleton (l : List IterRec) (r : IterRec) :
    (l ++ [r]).getLast? = some r := by
  rw [List.getLast?_append_of_ne_nil _ (by simp)]
  rfl

/-- Dropping the last element of a trace extended by one record. -/
theorem dropLast_append_singleton (l : List IterRec) (r : IterRec) :
    (l ++ [r]).dropLast = l := by
  simp [List.dropLast_concat]

/-- Invariant of the bisection loop behind claim C2: any `MethodResult` the
loop produces has `iterations_used` equal to the trace length and to the
index of its last record, provided the accumulator satisfies the matching
book-keeping invariant. -/
theorem bisectionLoop_trace_invariant (func : ℚ → Except PyError ℚ) (tol : ℚ) (M : ℤ) :
    ∀ (rem : ℕ) (a b fa fb : ℚ) (it : ℕ) (acc : List IterRec) (last : Option (ℚ × ℚ))
      (res : MethodResult),
      it = acc.length + 1 →
      acc.length + rem = M.toNat →
      (∀ r, acc.getLast? = some r → r.iteration = acc.length) →
      (last.isSome → acc ≠ []) →
      bisectionLoop func tol M rem a b fa fb it acc last = .ok res →
      ((res.iterations.length : ℤ) = res.iterations_used ∧
        ∃ r, res.iterations.getLast? = some r ∧ (r.iteration : ℤ) = res.iterations_used) := by
  intro rem
  induction rem with
  | zero =>
      intro a b fa fb it acc last res hit hfuel hacc hsome hrun
      rcases last with _ | ⟨c, e⟩
      · simp [bisectionLoop] at hrun
      · simp only [bisectionLoop, Except.ok.injEq] at hrun
        subst hrun
        have hne : acc ≠ [] := hsome (by simp)
        have hlen : 1 ≤ acc.length := List.length_pos.mpr hne
        have hM : (acc.length : ℤ) = M := by omega
        obtain ⟨r, hr⟩ := Option.isSome_iff_exists.mp (List.getLast?_isSome.mpr hne)
        exact ⟨hM, r, hr, by rw [hacc r hr]; exact hM⟩
  | succ rem ih =>
      intro a b fa fb it acc last res hit hfuel hacc hsome hrun
      simp only [bisectionLoop] at hrun
      rcases hfc : func ((a + b) / 2) with exc | fc <;> rw [hfc] at hrun
      · simp at hrun
      · simp only at hrun
        by_cases hstop : |b - a| / 2 < tol ∨ |fc| < tol
        · rw [if_pos hstop] at hrun
          simp only [Except.ok.injEq] at hrun
          subst hrun
          refine ⟨by simp; omega, ⟨it, (a + b) / 2, fc, |b - a| / 2⟩, ?_, by simp⟩
          exact getLast?_append_singleton acc _
        · rw [if_neg hstop] at hrun
          have hinv1 : it + 1 = (acc ++ [(⟨it, (a + b) / 2, fc, |b - a| / 2⟩ : IterRec)]).length + 1 := by
            simp; omega
          have hinv2 : (acc ++ [(⟨it, (a + b) / 2, fc, |b - a| / 2⟩ : IterRec)]).length + rem = M.toNat := by
            simp; omega
          have hinv3 : ∀ r, (acc ++ [(⟨it, (a + b) / 2, fc, |b - a| / 2⟩ : IterRec)]).getLast? = some r →
              r.iteration = (acc ++ [(⟨it, (a + b) / 2, fc, |b - a| / 2⟩ : IterRec)]).length := by
            intro r hr
            rw [getLast?_append_singleton] at hr
            cases hr
            simp; omega
          have hinv4 : (Option.some ((a + b) / 2, |b - a| / 2)).isSome = true →
              (acc ++ [(⟨it, (a + b) / 2, fc, |b - a| / 2⟩ : IterRec)]) ≠ [] := by
            intro _; simp
          by_cases hsign : fa * fc < 0
          · rw [if_pos hsign] at hrun
            exact ih a ((a + b) / 2) fa fc (it + 1) _ _ res hinv1 hinv2 hinv3 hinv4 hrun
          · rw [if_neg hsign] at hrun
            exact ih ((a + b) / 2) b fc fb (it + 1) _ _ res hinv1 hinv2 hinv3 hinv4 hrun

/-- Book-keeping for one appended record: the conclusion of the trace
invariant at an early return `MethodResult(acc ++ [r], c, error, it)`. -/
theorem trace_early_concl (acc : List IterRec) (r : IterRec) (it : ℕ)
    (hit : it = acc.length + 1) (hr : r.iteration = it) :
    ((acc ++ [r]).length : ℤ) = (it : ℤ) ∧
      ∃ s, (acc ++ [r]).getLast? = some s ∧ ((s.iteration : ℕ) : ℤ) = (it : ℤ) := by
  refine ⟨by simp; omega, r, getLast?_append_singleton acc r, by rw [hr]⟩

/-- Book-keeping at loop exhaustion, `MethodResult(acc, c, error, M)`. -/
theorem trace_exhaust_concl (M : ℤ) (acc : List IterRec)
    (hne : acc ≠ []) (hfuel : acc.length = M.toNat)
    (hacc : ∀ r, acc.getLast? = some r → r.iteration = acc.length) :
    ((acc.length : ℤ) = M ∧ ∃ r, acc.getLast? = some r ∧ ((r.iteration : ℕ) : ℤ) = M) := by
  have hlen : 1 ≤ acc.length := List.length_pos.mpr hne
  have hM : (acc.length : ℤ) = M := by omega
  obtain ⟨r, hr⟩ := Option.isSome_iff_exists.mp (List.getLast?_isSome.mpr hne)
  exact ⟨hM, r, hr, by rw [hacc r hr]; exact hM⟩

/-- Book-keeping invariant re-established after one loop pass. -/
theorem trace_step_inv (acc : List IterRec) (r : IterRec) (it : ℕ)
    (hit : it = acc.length + 1) (hr : r.iteration = it) :
    it + 1 = (acc ++ [r]).length + 1 ∧
      (∀ s, (acc ++ [r]).getLast? = some s → s.iteration = (acc ++ [r]).length) ∧
      (acc ++ [r] : List IterRec) ≠ [] := by
  refine ⟨by simp; omega, ?_, by simp⟩
  intro s hs
  rw [getLast?_append_singleton] at hs
  cases hs
  simp; omega

/-- Trace invariant of the regula-falsi loop (claim C2). -/
theorem regulaLoop_trace_invariant (func : ℚ → Except PyError ℚ) (tol : ℚ) (M : ℤ) :
    ∀ (rem : ℕ) (a b fa fb : ℚ) (it : ℕ) (acc : List IterRec) (last : Option (ℚ × ℚ))
      (res : MethodResult),
      it = acc.length + 1 →
      acc.length + rem = M.toNat →
      (∀ r, acc.getLast? = some r → r.iteration = acc.length) →
      (last.isSome → acc ≠ []) →
      regulaLoop func tol M rem a b fa fb it acc last = .ok res →
      ((res.iterations.length : ℤ) = res.iterations_used ∧
        ∃ r, res.iterations.getLast? = some r ∧ (r.iteration : ℤ) = res.iterations_used) := by
  intro rem
  induction rem with
  | zero =>
      intro a b fa fb it acc last res hit hfuel hacc hsome hrun
      rcases last with _ | ⟨c, e⟩
      · simp [regulaLoop] at hrun
      · simp only [regulaLoop, Except.ok.injEq] at hrun
        subst hrun
        exact trace_exhaust_concl M acc (hsome (by simp)) (by omega) hacc
  | succ rem ih =>
      intro a b fa fb it acc last res hit hfuel hacc hsome hrun
      simp only [regulaLoop] at hrun
      by_cases hden : fb - fa = 0
      · rw [if_pos hden] at hrun; simp at hrun
      · rw [if_neg hden] at hrun
        rcases hfc : func ((a * fb - b * fa) / (fb - fa)) with exc | fc <;> rw [hfc] at hrun
        · simp at hrun
        · simp only at hrun
          by_cases hstop : |fc| < tol ∨ |fc| < tol
          · rw [if_pos hstop] at hrun
            simp only [Except.ok.injEq] at hrun
            subst hrun
            exact trace_early_concl acc _ it hit rfl
          · rw [if_neg hstop] at hrun
            obtain ⟨h1, h3, h4⟩ := trace_step_inv acc
              ⟨it, (a * fb - b * fa) / (fb - fa), fc, |fc|⟩ it hit rfl
            by_cases hsign : fa * fc < 0
            · rw [if_pos hsign] at hrun
              exact ih _ _ _ _ (it + 1) _ _ res h1 (by simp; omega) h3 (fun _ => h4) hrun
            · rw [if_neg hsign] at hrun
              exact ih _ _ _ _ (it + 1) _ _ res h1 (by simp; omega) h3 (fun _ => h4) hrun

/-- Trace invariant of the secant loop (claim C2). -/
theorem secantLoop_trace_invariant (func : ℚ → Except PyError ℚ) (tol : ℚ) (M : ℤ) :
    ∀ (rem : ℕ) (prev curr : ℚ) (it : ℕ) (acc : List IterRec) (last : Option (ℚ × ℚ))
      (res : MethodResult),
      it = acc.length + 1 →
      acc.length + rem = M.toNat →
      (∀ r, acc.getLast? = some r → r.iteration = acc.length) →
      (last.isSome → acc ≠ []) →
      secantLoop func tol M rem prev curr it acc last = .ok res →
      ((res.iterations.length : ℤ) = res.iterations_used ∧
        ∃ r, res.iterations.getLast? = some r ∧ (r.iteration : ℤ) = res.iterations_used) := by
  intro rem
  induction rem with
  | zero =>
      intro prev curr it acc last res hit hfuel hacc hsome hrun
      rcases last with _ | ⟨c, e⟩
      · simp [secantLoop] at hrun
      · simp only [secantLoop, Except.ok.injEq] at hrun
        subst hrun
        exact trace_exhaust_concl M acc (hsome (by simp)) (by omega) hacc
  | succ rem ih =>
      intro prev curr it acc last res hit hfuel hacc hsome hrun
      simp only [secantLoop] at hrun
      rcases hfp : func prev with exc | f_prev <;> rw [hfp] at hrun
      · simp at hrun
      · simp only at hrun
        rcases hfcu : func curr with exc | f_curr <;> rw [hfcu] at hrun
        · simp at hrun
        · simp only at hrun
          by_cases hden : f_curr - f_prev = 0
          · rw [if_pos hden] at hrun; simp at hrun
          · rw [if_neg hden] at hrun
            rcases hfn : func (curr - f_curr * (curr - prev) / (f_curr - f_prev)) with exc | f_next <;>
              rw [hfn] at hrun
            · simp at hrun
            · simp only at hrun
              by_cases hstop : |curr - f_curr * (curr - prev) / (f_curr - f_prev) - curr| < tol ∨
                  |f_next| < tol
              · rw [if_pos hstop] at hrun
                simp only [Except.ok.injEq] at hrun
                subst hrun
                exact trace_early_concl acc _ it hit rfl
              · rw [if_neg hstop] at hrun
                obtain ⟨h1, h3, h4⟩ := trace_step_inv acc
                  ⟨it, curr - f_curr * (curr - prev) / (f_curr - f_prev), f_next,
                    |curr - f_curr * (curr - prev) / (f_curr - f_prev) - curr|⟩ it hit rfl
                exact ih _ _ (it + 1) _ _ res h1 (by simp; omega) h3 (fun _ => h4) hrun

/-- Trace invariant of the Newton-Raphson loop (claim C2). -/
theorem newtonLoop_trace_invariant (func derivative : ℚ → Except PyError ℚ) (tol : ℚ) (M : ℤ) :
    ∀ (rem : ℕ) (current : ℚ) (it : ℕ) (acc : List IterRec) (last : Option (ℚ × ℚ))
      (res : MethodResult),
      it = acc.length + 1 →
      acc.length + rem = M.toNat →
      (∀ r, acc.getLast? = some r → r.iteration = acc.length) →
      (last.isSome → acc ≠ []) →
      newtonLoop func derivative tol M rem current it acc last = .ok res →
      ((res.iterations.length : ℤ) = res.iterations_used ∧
        ∃ r, res.iterations.getLast? = some r ∧ (r.iteration : ℤ) = res.iterations_used) := by
  intro rem
  induction rem with
  | zero =>
      intro current it acc last res hit hfuel hacc hsome hrun
      rcases last with _ | ⟨c, e⟩
      · simp [newtonLoop] at hrun
      · simp only [newtonLoop, Except.ok.injEq] at hrun
        subst hrun
        exact trace_exhaust_concl M acc (hsome (by simp)) (by omega) hacc
  | succ rem ih =>
      intro current it acc last res hit hfuel hacc hsome hrun
      simp only [newtonLoop] at hrun
      rcases hfv : func current with exc | f_val <;> rw [hfv] at hrun
      · simp at hrun
      · simp only at hrun
        rcases hdv : derivative current with exc | derivative_val <;> rw [hdv] at hrun
        · simp at hrun
        · simp only at hrun
          by_cases hden : derivative_val = 0
          · rw [if_pos hden] at hrun; simp at hrun
          · rw [if_neg hden] at hrun
            rcases hfn : func (current - f_val / derivative_val) with exc | f_next <;>
              rw [hfn] at hrun
            · simp at hrun
            · simp only at hrun
              by_cases hstop : |current - f_val / derivative_val - current| < tol ∨ |f_next| < tol
              · rw [if_pos hstop] at hrun
                simp only [Except.ok.injEq] at hrun
                subst hrun
                exact trace_early_concl acc _ it hit rfl
              · rw [if_neg hstop] at hrun
                obtain ⟨h1, h3, h4⟩ := trace_step_inv acc
                  ⟨it, current - f_val / derivative_val, f_next,
                    |current - f_val / derivative_val - current|⟩ it hit rfl
                exact ih _ (it + 1) _ _ res h1 (by simp; omega) h3 (fun _ => h4) hrun

/-- Trace invariant of the fixed-point loop (claim C2). -/
theorem fixedPointLoop_trace_invariant (g_func : ℚ → Except PyError ℚ) (tol : ℚ) (M : ℤ) :
    ∀ (rem : ℕ) (current : ℚ) (it : ℕ) (acc : List IterRec) (last : Option (ℚ × ℚ))
      (res : MethodResult),
      it = acc.length + 1 →
      acc.length + rem = M.toNat →
      (∀ r, acc.getLast? = some r → r.iteration = acc.length) →
      (last.isSome → acc ≠ []) →
      fixedPointLoop g_func tol M rem current it acc last = .ok res →
      ((res.iterations.length : ℤ) = res.iterations_used ∧
        ∃ r, res.iterations.getLast? = some r ∧ (r.iteration : ℤ) = res.iterations_used) := by
  intro rem
  induction rem with
  | zero =>
      intro current it acc last res hit hfuel hacc hsome hrun
      rcases last with _ | ⟨c, e⟩
      · simp [fixedPointLoop] at hrun
      · simp only [fixedPointLoop, Except.ok.injEq] at hrun
        subst hrun
        exact trace_exhaust_concl M acc (hsome (by simp)) (by omega) hacc
  | succ rem ih =>
      intro current it acc last res hit hfuel hacc hsome hrun
      simp only [fixedPointLoop] at hrun
      rcases hnx : g_func current with exc | next_x <;> rw [hnx] at hrun
      · simp at hrun
      · simp only at hrun
        by_cases hstop : |next_x - current| < tol
        · rw [if_pos hstop] at hrun
          simp only [Except.ok.injEq] at hrun
          subst hrun
          exact trace_early_concl acc _ it hit rfl
        · rw [if_neg hstop] at hrun
          obtain ⟨h1, h3, h4⟩ := trace_step_inv acc
            ⟨it, next_x, next_x - current, |next_x - current|⟩ it hit rfl
          exact ih _ (it + 1) _ _ res h1 (by simp; omega) h3 (fun _ => h4) hrun

/-- Trace invariant of the modified-secant loop (claim C2). -/
theorem modSecantLoop_trace_invariant (func : ℚ → Except PyError ℚ) (delta tol : ℚ) (M : ℤ) :
    ∀ (rem : ℕ) (current : ℚ) (it : ℕ) (acc : List IterRec) (last : Option (ℚ × ℚ))
      (res : MethodResult),
      it = acc.length + 1 →
      acc.length + rem = M.toNat →
      (∀ r, acc.getLast? = some r → r.iteration = acc.length) →
      (last.isSome → acc ≠ []) →
      modSecantLoop func delta tol M rem current it acc last = .ok res →
      ((res.iterations.length : ℤ) = res.iterations_used ∧
        ∃ r, res.iterations.getLast? = some r ∧ (r.iteration : ℤ) = res.iterations_used) := by
  intro rem
  induction rem with
  | zero =>
      intro current it acc last res hit hfuel hacc hsome hrun
      rcases last with _ | ⟨c, e⟩
      · simp [modSecantLoop] at hrun
      · simp only [modSecantLoop, Except.ok.injEq] at hrun
        subst hrun
        exact trace_exhaust_concl M acc (hsome (by simp)) (by omega) hacc
  | succ rem ih =>
      intro current it acc last res hit hfuel hacc hsome hrun
      simp only [modSecantLoop] at hrun
      rcases hfc : func current with exc | f_current <;> rw [hfc] at hrun
      · simp at hrun
      · simp only at hrun
        rcases hfs : func (current + delta * current) with exc | f_shift <;> rw [hfs] at hrun
        · simp at hrun
        · simp only at hrun
          by_cases hden : f_shift - f_current = 0
          · rw [if_pos hden] at hrun; simp at hrun
          · rw [if_neg hden] at hrun
            rcases hfn : func (current - delta * current * f_current / (f_shift - f_current)) with
              exc | f_next <;> rw [hfn] at hrun
            · simp at hrun
            · simp only at hrun
              by_cases hstop :
                  |current - delta * current * f_current / (f_shift - f_current) - current| < tol ∨
                  |f_next| < tol
              · rw [if_pos hstop] at hrun
                simp only [Except.ok.injEq] at hrun
                subst hrun
                exact trace_early_concl acc _ it hit rfl
              · rw [if_neg hstop] at hrun
                obtain ⟨h1, h3, h4⟩ := trace_step_inv acc
                  ⟨it, current - delta * current * f_current / (f_shift - f_current), f_next,
                    |current - delta * current * f_current / (f_shift - f_current) - current|⟩
                  it hit rfl
                exact ih _ (it + 1) _ _ res h1 (by simp; omega) h3 (fun _ => h4) hrun

/-- The Method Result invariant of the spec: `iterations_used` equals the
length of the iteration-record sequence and equals the iteration index of
the last record. -/
def traceInvariant (res : MethodResult) : Prop :=
  (res.iterations.length : ℤ) = res.iterations_used ∧
    ∃ r, res.iterations.getLast? = some r ∧ (r.iteration : ℤ) = res.iterations_used

/-- C2: for every `MethodResult` returned by any of the six solve functions,
`iterations_used` equals the length of the iterations list and equals the
iteration index stored in the last iteration record. -/
theorem c2_iterations_used_invariant :
    (∀ (func : ℚ → Except PyError ℚ) (a b tol : ℚ) (M : ℤ) (res : MethodResult),
        bisection func a b tol M = .ok res → traceInvariant res) ∧
    (∀ (func : ℚ → Except PyError ℚ) (a b tol : ℚ) (M : ℤ) (res : MethodResult),
        regula_falsi func a b tol M = .ok res → traceInvariant res) ∧
    (∀ (func : ℚ → Except PyError ℚ) (x0 x1 tol : ℚ) (M : ℤ) (res : MethodResult),
        secant func x0 x1 tol M = .ok res → traceInvariant res) ∧
    (∀ (func derivative : ℚ → Except PyError ℚ) (x0 tol : ℚ) (M : ℤ) (res : MethodResult),
        newton_raphson func derivative x0 tol M = .ok res → traceInvariant res) ∧
    (∀ (g_func : ℚ → Except PyError ℚ) (x0 tol : ℚ) (M : ℤ) (res : MethodResult),
        fixed_point g_func x0 tol M = .ok res → traceInvariant res) ∧
    (∀ (func : ℚ → Except PyError ℚ) (x0 delta tol : ℚ) (M : ℤ) (res : MethodResult),
        modified_secant func x0 delta tol M = .ok res → traceInvariant res) := by
  refine ⟨?_, ?_, ?_, ?_, ?_, ?_⟩
  · intro func a b tol M res hrun
    simp only [bisection] at hrun
    rcases hfa : func a with exc | fa <;> rw [hfa] at hrun
    · simp at hrun
    · simp only at hrun
      rcases hfb : func b with exc | fb <;> rw [hfb] at hrun
      · simp at hrun
      · simp only at hrun
        by_cases hbr : fa * fb ≥ 0
        · rw [if_pos hbr] at hrun; simp at hrun
        · rw [if_neg hbr] at hrun
          exact bisectionLoop_trace_invariant func tol M M.toNat a b fa fb 1 [] none res rfl
            (by simp) (by intro r hr; simp at hr) (by simp) hrun
  · intro func a b tol M res hrun
    simp only [regula_falsi] at hrun
    rcases hfa : func a with exc | fa <;> rw [hfa] at hrun
    · simp at hrun
    · simp only at hrun
      rcases hfb : func b with exc | fb <;> rw [hfb] at hrun
      · simp at hrun
      · simp only at hrun
        by_cases hbr : fa * fb ≥ 0
        · rw [if_pos hbr] at hrun; simp at hrun
        · rw [if_neg hbr] at hrun
          exact regulaLoop_trace_invariant func tol M M.toNat a b fa fb 1 [] none res rfl
            (by simp) (by intro r hr; simp at hr) (by simp) hrun
  · intro func x0 x1 tol M res hrun
    exact secantLoop_trace_invariant func tol M M.toNat x0 x1 1 [] none res rfl
      (by simp) (by intro r hr; simp at hr) (by simp) hrun
  · intro func derivative x0 tol M res hrun
    exact newtonLoop_trace_invariant func derivative tol M M.toNat x0 1 [] none res rfl
      (by simp) (by intro r hr; simp at hr) (by simp) hrun
  · intro g_func x0 tol M res hrun
    exact fixedPointLoop_trace_invariant g_func tol M M.toNat x0 1 [] none res rfl
      (by simp) (by intro r hr; simp at hr) (by simp) hrun
  · intro func x0 delta tol M res hrun
    simp only [modified_secant] at hrun
    by_cases hdelta : delta = 0
    · rw [if_pos hdelta] at hrun; simp at hrun
    · rw [if_neg hdelta] at hrun
      exact modSecantLoop_trace_invariant func delta tol M M.toNat x0 1 [] none res rfl
        (by simp) (by intro r hr; simp at hr) (by simp) hrun

/-- Witness for C2: the invariant instantiated on one concrete run of each
of the six solve functions. -/
theorem c2_iterations_used_invariant_witness :
    traceInvariant ⟨[⟨1, 0, 0, 1⟩], 0, 1, 1⟩ ∧
    traceInvariant ⟨[⟨1, 0, 0, 0⟩], 0, 0, 1⟩ ∧
    traceInvariant ⟨[⟨1, 0, 0, 1⟩], 0, 1, 1⟩ ∧
    traceInvariant ⟨[⟨1, 0, 0, 1⟩], 0, 1, 1⟩ ∧
    traceInvariant ⟨[⟨1, 1, 1, 1⟩], 1, 1, 1⟩ ∧
    traceInvariant ⟨[⟨1, 0, 0, 1⟩], 0, 1, 1⟩ := by
  refine ⟨?_, ?_, ?_, ?_, ?_, ?_⟩
  · exact c2_iterations_used_invariant.1 (totalFn (fun q => q)) (-1) 1 0 1 _
      (by norm_num [bisection, bisectionLoop, totalFn])
  · exact c2_iterations_used_invariant.2.1 (totalFn (fun q => q)) (-1) 1 0 1 _
      (by norm_num [regula_falsi, regulaLoop, totalFn])
  · exact c2_iterations_used_invariant.2.2.1 (totalFn (fun q => q)) 0 1 0 1 _
      (by norm_num [secant, secantLoop, totalFn])
  · exact c2_iterations_used_invariant.2.2.2.1 (totalFn (fun q => q)) (totalFn (fun _ => 1)) 1 0 1 _
      (by norm_num [newton_raphson, newtonLoop, totalFn])
  · exact c2_iterations_used_invariant.2.2.2.2.1 (totalFn (fun q => q + 1)) 0 0 1 _
      (by norm_num [fixed_point, fixedPointLoop, totalFn])
  · exact c2_iterations_used_invariant.2.2.2.2.2 (totalFn (fun q => q)) 1 1 0 1 _
      (by norm_num [modified_secant, modSecantLoop, totalFn])

/-- C6: with `f(a)·f(b) ≥ 0` both bracketing methods raise the
bracket-precondition `ValueError` (an error return, so no iteration record
is ever produced), for every tolerance and iteration cap. -/
theorem c6_bracket_valueerror (F : ℚ → ℚ) (a b tol : ℚ) (M : ℤ) (h : F a * F b ≥ 0) :
    bisection (totalFn F) a b tol M = .error (.valueError bisectionBracketMsg) ∧
    regula_falsi (totalFn F) a b tol M = .error (.valueError regulaBracketMsg) := by
  constructor
  · simp only [bisection, totalFn]
    rw [if_pos h]
  · simp only [regula_falsi, totalFn]
    rw [if_pos h]

/-- Witness for C6 at `f = const 1` (both endpoint values positive). -/
theorem c6_bracket_valueerror_witness :
    bisection (totalFn (fun _ => 1)) 0 1 1 5 = .error (.valueError bisectionBracketMsg) ∧
    regula_falsi (totalFn (fun _ => 1)) 0 1 1 5 = .error (.valueError regulaBracketMsg) :=
  c6_bracket_valueerror (fun _ => 1) 0 1 1 5 (by norm_num)

/-- Counterexample to C9 as stated: with `max_iter = 0` but an invalid
bracket, `bisection` raises the documented bracket-precondition
`ValueError`, not an unbound-local error — so "the call neither returns a
MethodResult nor raises one of the documented errors" is not true of every
call with non-positive `max_iter`. -/
theorem c9_counterexample :
    bisection (totalFn (fun _ => 1)) 0 1 1 0 = .error (.valueError bisectionBracketMsg) := by
  simp only [bisection, totalFn]
  rw [if_pos (by norm_num)]

/-- C9 (amended): for calls that pass the documented preconditions (a valid
bracket for bisection/regula falsi, a non-zero `delta` for modified secant),
a non-positive `max_iter` makes every one of the six solve functions skip
the loop body entirely and fail with Python's unbound-local error at the
final return, instead of returning a `MethodResult` or raising one of the
documented errors. -/
theorem c9_nonpositive_cap_unbound_local :
    (∀ (F : ℚ → ℚ) (a b tol : ℚ) (M : ℤ), M ≤ 0 → F a * F b < 0 →
        bisection (totalFn F) a b tol M = .error .unboundLocal) ∧
    (∀ (F : ℚ → ℚ) (a b tol : ℚ) (M : ℤ), M ≤ 0 → F a * F b < 0 →
        regula_falsi (totalFn F) a b tol M = .error .unboundLocal) ∧
    (∀ (func : ℚ → Except PyError ℚ) (x0 x1 tol : ℚ) (M : ℤ), M ≤ 0 →
        secant func x0 x1 tol M = .error .unboundLocal) ∧
    (∀ (func derivative : ℚ → Except PyError ℚ) (x0 tol : ℚ) (M : ℤ), M ≤ 0 →
        newton_raphson func derivative x0 tol M = .error .unboundLocal) ∧
    (∀ (g_func : ℚ → Except PyError ℚ) (x0 tol : ℚ) (M : ℤ), M ≤ 0 →
        fixed_point g_func x0 tol M = .error .unboundLocal) ∧
    (∀ (func : ℚ → Except PyError ℚ) (x0 delta tol : ℚ) (M : ℤ), M ≤ 0 → delta ≠ 0 →
        modified_secant func x0 delta tol M = .error .unboundLocal) := by
  refine ⟨?_, ?_, ?_, ?_, ?_, ?_⟩
  · intro F a b tol M hM hbr
    simp only [bisection, totalFn]
    rw [if_neg (not_le.mpr hbr), Int.toNat_of_nonpos hM]
    rfl
  · intro F a b tol M hM hbr
    simp only [regula_falsi, totalFn]
    rw [if_neg (not_le.mpr hbr), Int.toNat_of_nonpos hM]
    rfl
  · intro func x0 x1 tol M hM
    simp only [secant]
    rw [Int.toNat_of_nonpos hM]
    rfl
  · intro func derivative x0 tol M hM
    simp only [newton_raphson]
    rw [Int.toNat_of_nonpos hM]
    rfl
  · intro g_func x0 tol M hM
    simp only [fixed_point]
    rw [Int.toNat_of_nonpos hM]
    rfl
  · intro func x0 delta tol M hM hdelta
    simp only [modified_secant]
    rw [if_neg hdelta, Int.toNat_of_nonpos hM]
    rfl

/-- Witness for C9 (amended) on concrete zero / negative caps. -/
theorem c9_nonpositive_cap_unbound_local_witness :
    bisection (totalFn (fun q => q)) (-1) 1 1 0 = .error .unboundLocal ∧
    regula_falsi (totalFn (fun q => q)) (-1) 1 1 (-2) = .error .unboundLocal ∧
    secant (totalFn (fun q => q)) 0 1 1 0 = .error .unboundLocal ∧
    newton_raphson (totalFn (fun q => q)) (totalFn (fun _ => 1)) 1 1 (-1) = .error .unboundLocal ∧
    fixed_point (totalFn (fun q => q + 1)) 0 1 0 = .error .unboundLocal ∧
    modified_secant (totalFn (fun q => q)) 1 1 1 0 = .error .unboundLocal := by
  refine ⟨?_, ?_, ?_, ?_, ?_, ?_⟩
  · exact c9_nonpositive_cap_unbound_local.1 (fun q => q) (-1) 1 1 0 (by norm_num) (by norm_num)
  · exact c9_nonpositive_cap_unbound_local.2.1 (fun q => q) (-1) 1 1 (-2) (by norm_num) (by norm_num)
  · exact c9_nonpositive_cap_unbound_local.2.2.1 _ 0 1 1 0 (by norm_num)
  · exact c9_nonpositive_cap_unbound_local.2.2.2.1 _ _ 1 1 (-1) (by norm_num)
  · exact c9_nonpositive_cap_unbound_local.2.2.2.2.1 _ 0 1 0 (by norm_num)
  · exact c9_nonpositive_cap_unbound_local.2.2.2.2.2 _ 1 1 1 0 (by norm_num) (by norm_num)

/-- Any expression of the modelled grammar that mentions an identifier
outside the vocabulary (`x` plus the allow-list) fails to evaluate, at every
`x`: Python evaluates every sub-expression of the arithmetic/call/attribute
grammar, so the `NameError` (or an earlier exception) always surfaces. -/
theorem mentionsUnknown_eval_error (x : ℚ) :
    ∀ e : PyExpr, mentionsUnknown e = true →
      ∃ exc, evalExpr allowedNames x e = .error exc := by
  intro e
  induction e with
  | num q => intro hm; simp [mentionsUnknown] at hm
  | imag q => intro hm; simp [mentionsUnknown] at hm
  | strLit s => intro hm; simp [mentionsUnknown] at hm
  | name s =>
      intro hm
      simp only [mentionsUnknown, Bool.not_eq_true'] at hm
      rw [knownName, Bool.or_eq_false_iff] at hm
      obtain ⟨hx, hlook⟩ := hm
      refine ⟨.nameError s, ?_⟩
      simp only [evalExpr, evalName]
      rw [if_neg (by simpa using hx)]
      rcases hl : allowedNames.lookup s with _ | v
      · rfl
      · rw [hl] at hlook; simp at hlook
  | neg e ih =>
      intro hm
      obtain ⟨exc, he⟩ := ih (by simpa [mentionsUnknown] using hm)
      exact ⟨exc, by simp [evalExpr, he]⟩
  | add a b iha ihb =>
      intro hm
      simp only [mentionsUnknown, Bool.or_eq_true] at hm
      rcases hm with hma | hmb
      · obtain ⟨exc, he⟩ := iha hma
        exact ⟨exc, by simp [evalExpr, he]⟩
      · rcases ha : evalExpr allowedNames x a with exc | va
        · exact ⟨exc, by simp [evalExpr, ha]⟩
        · obtain ⟨exc, he⟩ := ihb hmb
          exact ⟨exc, by simp [evalExpr, ha, he]⟩
  | sub a b iha ihb =>
      intro hm
      simp only [mentionsUnknown, Bool.or_eq_true] at hm
      rcases hm with hma | hmb
      · obtain ⟨exc, he⟩ := iha hma
        exact ⟨exc, by simp [evalExpr, he]⟩
      · rcases ha : evalExpr allowedNames x a with exc | va
        · exact ⟨exc, by simp [evalExpr, ha]⟩
        · obtain ⟨exc, he⟩ := ihb hmb
          exact ⟨exc, by simp [evalExpr, ha, he]⟩
  | mul a b iha ihb =>
      intro hm
      simp only [mentionsUnknown, Bool.or_eq_true] at hm
      rcases hm with hma | hmb
      · obtain ⟨exc, he⟩ := iha hma
        exact ⟨exc, by simp [evalExpr, he]⟩
      · rcases ha : evalExpr allowedNames x a with exc | va
        · exact ⟨exc, by simp [evalExpr, ha]⟩
        · obtain ⟨exc, he⟩ := ihb hmb
          exact ⟨exc, by simp [evalExpr, ha, he]⟩
  | div a b iha ihb =>
      intro hm
      simp only [mentionsUnknown, Bool.or_eq_true] at hm
      rcases hm with hma | hmb
      · obtain ⟨exc, he⟩ := iha hma
        exact ⟨exc, by simp [evalExpr, he]⟩
      · rcases ha : evalExpr allowedNames x a with exc | va
        · exact ⟨exc, by simp [evalExpr, ha]⟩
        · obtain ⟨exc, he⟩ := ihb hmb
          exact ⟨exc, by simp [evalExpr, ha, he]⟩
  | pow a b iha ihb =>
      intro hm
      simp only [mentionsUnknown, Bool.or_eq_true] at hm
      rcases hm with hma | hmb
      · obtain ⟨exc, he⟩ := iha hma
        exact ⟨exc, by simp [evalExpr, he]⟩
      · rcases ha : evalExpr allowedNames x a with exc | va
        · exact ⟨exc, by simp [evalExpr, ha]⟩
        · obtain ⟨exc, he⟩ := ihb hmb
          exact ⟨exc, by simp [evalExpr, ha, he]⟩
  | attr e f ih =>
      intro hm
      obtain ⟨exc, he⟩ := ih (by simpa [mentionsUnknown] using hm)
      exact ⟨exc, by simp [evalExpr, he]⟩
  | call f a ihf iha =>
      intro hm
      simp only [mentionsUnknown, Bool.or_eq_true] at hm
      rcases hm with hmf | hma
      · obtain ⟨exc, he⟩ := ihf hmf
        exact ⟨exc, by simp [evalExpr, he]⟩
      · rcases hf : evalExpr allowedNames x f with exc | vf
        · exact ⟨exc, by simp [evalExpr, hf]⟩
        · obtain ⟨exc, he⟩ := iha hma
          exact ⟨exc, by simp [evalExpr, hf, he]⟩
  | pair a b iha ihb =>
      intro hm
      simp only [mentionsUnknown, Bool.or_eq_true] at hm
      rcases hm with hma | hmb
      · obtain ⟨exc, he⟩ := iha hma
        exact ⟨exc, by simp [evalExpr, he]⟩
      · rcases ha : evalExpr allowedNames x a with exc | va
        · exact ⟨exc, by simp [evalExpr, ha]⟩
        · obtain ⟨exc, he⟩ := ihb hmb
          exact ⟨exc, by simp [evalExpr, ha, he]⟩

/-- Counterexample to C1 as stated: `x.real` uses attribute access — outside
the allow-listed vocabulary — yet `parse_function` accepts it and the
returned Function evaluates it successfully (a Python float has a `real`
attribute equal to itself), raising no error at parse time or call time. -/
theorem c1_counterexample :
    parse_function (.expr xRealExpr) = .ok ⟨xRealExpr, allowedNames⟩ ∧
    funcCall ⟨xRealExpr, allowedNames⟩ 2 = .ok 2 := by
  constructor
  · rfl
  · norm_num [funcCall, xRealExpr, evalExpr, evalName, pyAttr, pyFloat, isComplexVal]

/-- C1 (amended): the empty expression and anything `compile` rejects
(statements, assignments, function definitions, malformed text) fail at
parse time; every expression of the modelled grammar that references an
identifier other than `x` and the allow-listed names fails at call time
with a `FunctionParserError`; in particular `os.system("x")` fails with the
wrapped undefined-name error for `os` and never reaches any host
capability.  (Attribute access alone, however, is not rejected — see the
counterexample `x.real`.) -/
theorem c1_vocabulary_rejection :
    (parse_function .empty = .error .functionParserEmpty) ∧
    (∀ msg, parse_function (.invalidSyntax msg) = .error (.functionParserSyntax msg)) ∧
    (∀ (e : PyExpr) (x : ℚ), mentionsUnknown e = true →
        ∃ err, funcCall ⟨e, allowedNames⟩ x = .error err) ∧
    (∀ x : ℚ, funcCall ⟨osSystemExpr, allowedNames⟩ x =
        .error (.functionParserEval x (.nameError ("os")))) := by
  refine ⟨rfl, fun msg => rfl, ?_, ?_⟩
  · intro e x hm
    obtain ⟨exc, he⟩ := mentionsUnknown_eval_error x e hm
    exact ⟨.functionParserEval x exc, by simp [funcCall, he]⟩
  · intro x
    simp [funcCall, osSystemExpr, evalExpr, evalName, allowedNames, List.lookup]

/-- Witness for C1 (amended): concrete instances — the malformed source
`x +`, the unknown identifier `y` at `x = 5`, and `os.system("x")` at
`x = 3`. -/
theorem c1_vocabulary_rejection_witness :
    parse_function (.invalidSyntax ("invalid syntax")) =
        .error (.functionParserSyntax ("invalid syntax")) ∧
    (∃ err, funcCall ⟨.name ("y"), allowedNames⟩ 5 = .error err) ∧
    funcCall ⟨osSystemExpr, allowedNames⟩ 3 =
        .error (.functionParserEval 3 (.nameError ("os"))) := by
  refine ⟨c1_vocabulary_rejection.2.1 ("invalid syntax"), ?_, c1_vocabulary_rejection.2.2.2 3⟩
  exact c1_vocabulary_rejection.2.2.1 (.name ("y")) 5
    (by simp [mentionsUnknown, knownName, allowedNames, List.lookup])

/-- Counterexample to C5 as stated: the imaginary literal `1j` evaluates to
a complex value, and the error the Function raises is the fixed-message
complex-result `FunctionParserError` (methods.py line 48), which does NOT
carry the triggering `x` or the underlying cause. -/
theorem c5_counterexample :
    funcCall ⟨.imag 1, allowedNames⟩ 0 = .error .functionParserComplex ∧
    carriesTriggeringX .functionParserComplex = false := by
  constructor
  · norm_num [funcCall, evalExpr, isComplexVal]
  · rfl

/-- Every error exit of the bisection loop is either the unbound-local
failure of a never-run loop or verbatim an error raised by a `func`
evaluation: the loop neither alters nor swallows evaluation errors. -/
theorem bisectionLoop_error_origin (func : ℚ → Except PyError ℚ) (tol : ℚ) (M : ℤ) :
    ∀ (rem : ℕ) (a b fa fb : ℚ) (it : ℕ) (acc : List IterRec) (last : Option (ℚ × ℚ))
      (e : PyError),
      bisectionLoop func tol M rem a b fa fb it acc last = .error e →
      e = .unboundLocal ∨ ∃ q, func q = .error e := by
  intro rem
  induction rem with
  | zero =>
      intro a b fa fb it acc last e hrun
      rcases last with _ | ⟨c, e0⟩
      · simp only [bisectionLoop, Except.error.injEq] at hrun
        exact Or.inl hrun.symm
      · simp [bisectionLoop] at hrun
  | succ rem ih =>
      intro a b fa fb it acc last e hrun
      simp only [bisectionLoop] at hrun
      rcases hfc : func ((a + b) / 2) with exc | fc <;> rw [hfc] at hrun
      · simp only [Except.error.injEq] at hrun
        exact Or.inr ⟨(a + b) / 2, by rw [hfc, hrun]⟩
      · simp only at hrun
        by_cases hstop : |b - a| / 2 < tol ∨ |fc| < tol
        · rw [if_pos hstop] at hrun
          simp at hrun
        · rw [if_neg hstop] at hrun
          by_cases hsign : fa * fc < 0
          · rw [if_pos hsign] at hrun
            exact ih _ _ _ _ _ _ _ _ hrun
          · rw [if_neg hsign] at hrun
            exact ih _ _ _ _ _ _ _ _ hrun

/-- Error exits of the regula-falsi loop: unbound local, the
`ZeroDivisionError` of the interpolation division, or verbatim a `func`
error. -/
theorem regulaLoop_error_origin (func : ℚ → Except PyError ℚ) (tol : ℚ) (M : ℤ) :
    ∀ (rem : ℕ) (a b fa fb : ℚ) (it : ℕ) (acc : List IterRec) (last : Option (ℚ × ℚ))
      (e : PyError),
      regulaLoop func tol M rem a b fa fb it acc last = .error e →
      e = .unboundLocal ∨ e = .raised .zeroDivisionError ∨ ∃ q, func q = .error e := by
  intro rem
  induction rem with
  | zero =>
      intro a b fa fb it acc last e hrun
      rcases last with _ | ⟨c, e0⟩
      · simp only [regulaLoop, Except.error.injEq] at hrun
        exact Or.inl hrun.symm
      · simp [regulaLoop] at hrun
  | succ rem ih =>
      intro a b fa fb it acc last e hrun
      simp only [regulaLoop] at hrun
      by_cases hden : fb - fa = 0
      · rw [if_pos hden] at hrun
        simp only [Except.error.injEq] at hrun
        exact Or.inr (Or.inl hrun.symm)
      · rw [if_neg hden] at hrun
        rcases hfc : func ((a * fb - b * fa) / (fb - fa)) with exc | fc <;> rw [hfc] at hrun
        · simp only [Except.error.injEq] at hrun
          exact Or.inr (Or.inr ⟨(a * fb - b * fa) / (fb - fa), by rw [hfc, hrun]⟩)
        · simp only at hrun
          by_cases hstop : |fc| < tol ∨ |fc| < tol
          · rw [if_pos hstop] at hrun
            simp at hrun
          · rw [if_neg hstop] at hrun
            by_cases hsign : fa * fc < 0
            · rw [if_pos hsign] at hrun
              exact ih _ _ _ _ _ _ _ _ hrun
            · rw [if_neg hsign] at hrun
              exact ih _ _ _ _ _ _ _ _ hrun

/-- Error exits of the secant loop: unbound local, the documented
zero-denominator `ValueError`, or verbatim a `func` error (from any of the
call sites of a pass). -/
theorem secantLoop_error_origin (func : ℚ → Except PyError ℚ) (tol : ℚ) (M : ℤ) :
    ∀ (rem : ℕ) (prev curr : ℚ) (it : ℕ) (acc : List IterRec) (last : Option (ℚ × ℚ))
      (e : PyError),
      secantLoop func tol M rem prev curr it acc last = .error e →
      e = .unboundLocal ∨ e = .valueError secantDenomMsg ∨ ∃ q, func q = .error e := by
  intro rem
  induction rem with
  | zero =>
      intro prev curr it acc last e hrun
      rcases last with _ | ⟨c, e0⟩
      · simp only [secantLoop, Except.error.injEq] at hrun
        exact Or.inl hrun.symm
      · simp [secantLoop] at hrun
  | succ rem ih =>
      intro prev curr it acc last e hrun
      simp only [secantLoop] at hrun
      rcases hfp : func prev with exc | f_prev <;> rw [hfp] at hrun
      · simp only [Except.error.injEq] at hrun
        exact Or.inr (Or.inr ⟨prev, by rw [hfp, hrun]⟩)
      · simp only at hrun
        rcases hfcu : func curr with exc | f_curr <;> rw [hfcu] at hrun
        · simp only [Except.error.injEq] at hrun
          exact Or.inr (Or.inr ⟨curr, by rw [hfcu, hrun]⟩)
        · simp only at hrun
          by_cases hden : f_curr - f_prev = 0
          · rw [if_pos hden] at hrun
            simp only [Except.error.injEq] at hrun
            exact Or.inr (Or.inl hrun.symm)
          · rw [if_neg hden] at hrun
            rcases hfn : func (curr - f_curr * (curr - prev) / (f_curr - f_prev)) with
              exc | f_next <;> rw [hfn] at hrun
            · simp only [Except.error.injEq] at hrun
              exact Or.inr (Or.inr
                ⟨curr - f_curr * (curr - prev) / (f_curr - f_prev), by rw [hfn, hrun]⟩)
            · simp only at hrun
              by_cases hstop : |curr - f_curr * (curr - prev) / (f_curr - f_prev) - curr| < tol ∨
                  |f_next| < tol
              · rw [if_pos hstop] at hrun
                simp at hrun
              · rw [if_neg hstop] at hrun
                exact ih _ _ _ _ _ _ hrun

/-- Error exits of the Newton-Raphson loop: unbound local, the documented
zero-derivative `ValueError`, or verbatim an error of `func` or of
`derivative`. -/
theorem newtonLoop_error_origin (func derivative : ℚ → Except PyError ℚ) (tol : ℚ) (M : ℤ) :
    ∀ (rem : ℕ) (current : ℚ) (it : ℕ) (acc : List IterRec) (last : Option (ℚ × ℚ))
      (e : PyError),
      newtonLoop func derivative tol M rem current it acc last = .error e →
      e = .unboundLocal ∨ e = .valueError newtonDerivMsg ∨ (∃ q, func q = .error e) ∨
        ∃ q, derivative q = .error e := by
  intro rem
  induction rem with
  | zero =>
      intro current it acc last e hrun
      rcases last with _ | ⟨c, e0⟩
      · simp only [newtonLoop, Except.error.injEq] at hrun
        exact Or.inl hrun.symm
      · simp [newtonLoop] at hrun
  | succ rem ih =>
      intro current it acc last e hrun
      simp only [newtonLoop] at hrun
      rcases hfv : func current with exc | f_val <;> rw [hfv] at hrun
      · simp only [Except.error.injEq] at hrun
        exact Or.inr (Or.inr (Or.inl ⟨current, by rw [hfv, hrun]⟩))
      · simp only at hrun
        rcases hdv : derivative current with exc | derivative_val <;> rw [hdv] at hrun
        · simp only [Except.error.injEq] at hrun
          exact Or.inr (Or.inr (Or.inr ⟨current, by rw [hdv, hrun]⟩))
        · simp only at hrun
          by_cases hden : derivative_val = 0
          · rw [if_pos hden] at hrun
            simp only [Except.error.injEq] at hrun
            exact Or.inr (Or.inl hrun.symm)
          · rw [if_neg hden] at hrun
            rcases hfn : func (current - f_val / derivative_val) with exc | f_next <;>
              rw [hfn] at hrun
            · simp only [Except.error.injEq] at hrun
              exact Or.inr (Or.inr (Or.inl ⟨current - f_val / derivative_val, by rw [hfn, hrun]⟩))
            · simp only at hrun
              by_cases hstop : |current - f_val / derivative_val - current| < tol ∨ |f_next| < tol
              · rw [if_pos hstop] at hrun
                simp at hrun
              · rw [if_neg hstop] at hrun
                exact ih _ _ _ _ _ hrun

/-- Error exits of the fixed-point loop: unbound local or verbatim a
`g_func` error. -/
theorem fixedPointLoop_error_origin (g_func : ℚ → Except PyError ℚ) (tol : ℚ) (M : ℤ) :
    ∀ (rem : ℕ) (current : ℚ) (it : ℕ) (acc : List IterRec) (last : Option (ℚ × ℚ))
      (e : PyError),
      fixedPointLoop g_func tol M rem current it acc last = .error e →
      e = .unboundLocal ∨ ∃ q, g_func q = .error e := by
  intro rem
  induction rem with
  | zero =>
      intro current it acc last e hrun
      rcases last with _ | ⟨c, e0⟩
      · simp only [fixedPointLoop, Except.error.injEq] at hrun
        exact Or.inl hrun.symm
      · simp [fixedPointLoop] at hrun
  | succ rem ih =>
      intro current it acc last e hrun
      simp only [fixedPointLoop] at hrun
      rcases hnx : g_func current with exc | next_x <;> rw [hnx] at hrun
      · simp only [Except.error.injEq] at hrun
        exact Or.inr ⟨current, by rw [hnx, hrun]⟩
      · simp only at hrun
        by_cases hstop : |next_x - current| < tol
        · rw [if_pos hstop] at hrun
          simp at hrun
        · rw [if_neg hstop] at hrun
          exact ih _ _ _ _ _ hrun

/-- Error exits of the modified-secant loop: unbound local, the documented
zero-denominator `ValueError`, or verbatim a `func` error. -/
theorem modSecantLoop_error_origin (func : ℚ → Except PyError ℚ) (delta tol : ℚ) (M : ℤ) :
    ∀ (rem : ℕ) (current : ℚ) (it : ℕ) (acc : List IterRec) (last : Option (ℚ × ℚ))
      (e : PyError),
      modSecantLoop func delta tol M rem current it acc last = .error e →
      e = .unboundLocal ∨ e = .valueError modSecDenomMsg ∨ ∃ q, func q = .error e := by
  intro rem
  induction rem with
  | zero =>
      intro current it acc last e hrun
      rcases last with _ | ⟨c, e0⟩
      · simp only [modSecantLoop, Except.error.injEq] at hrun
        exact Or.inl hrun.symm
      · simp [modSecantLoop] at hrun
  | succ rem ih =>
      intro current it acc last e hrun
      simp only [modSecantLoop] at hrun
      rcases hfc : func current with exc | f_current <;> rw [hfc] at hrun
      · simp only [Except.error.injEq] at hrun
        exact Or.inr (Or.inr ⟨current, by rw [hfc, hrun]⟩)
      · simp only at hrun
        rcases hfs : func (current + delta * current) with exc | f_shift <;> rw [hfs] at hrun
        · simp only [Except.error.injEq] at hrun
          exact Or.inr (Or.inr ⟨current + delta * current, by rw [hfs, hrun]⟩)
        · simp only at hrun
          by_cases hden : f_shift - f_current = 0
          · rw [if_pos hden] at hrun
            simp only [Except.error.injEq] at hrun
            exact Or.inr (Or.inl hrun.symm)
          · rw [if_neg hden] at hrun
            rcases hfn : func (current - delta * current * f_current / (f_shift - f_current)) with
              exc | f_next <;> rw [hfn] at hrun
            · simp only [Except.error.injEq] at hrun
              exact Or.inr (Or.inr
                ⟨current - delta * current * f_current / (f_shift - f_current), by rw [hfn, hrun]⟩)
            · simp only at hrun
              by_cases hstop :
                  |current - delta * current * f_current / (f_shift - f_current) - current| < tol ∨
                  |f_next| < tol
              · rw [if_pos hstop] at hrun
                simp at hrun
              · rw [if_neg hstop] at hrun
                exact ih _ _ _ _ _ hrun

/-- C5 (amended): an exception raised during evaluation (undefined name,
math-domain error, zero division, ...) is wrapped into the
`FunctionParserError` that carries the triggering `x` and the cause; a
complex result raises the fixed-message `FunctionParserError` (without `x`
or cause); `sqrt(-1)` is a concrete math-domain instance.  And such an
error propagates out of every solve loop unchanged: at any loop state of
any of the six algorithms (hence at every iteration), a failing evaluation
aborts the loop with exactly that error, and conversely every error a full
solve call returns is either the method's own documented
precondition/degenerate-step error (or the unbound-local failure) or
verbatim an error raised by an evaluated function — no algorithm catches,
rewraps, or swallows it. -/
theorem c5_evaluation_errors :
    (∀ (p : ParsedFunction) (x : ℚ) (exc : PyExc),
        evalExpr p.captured x p.compiled = .error exc →
        funcCall p x = .error (.functionParserEval x exc)) ∧
    (∀ (p : ParsedFunction) (x : ℚ) (v : PyVal),
        evalExpr p.captured x p.compiled = .ok v → isComplexVal v = true →
        funcCall p x = .error .functionParserComplex) ∧
    (∀ x : ℚ, funcCall ⟨.call (.name ("sqrt")) (.neg (.num 1)), allowedNames⟩ x =
        .error (.functionParserEval x (.valueErrorExc mathDomainMsg))) ∧
    (∀ (func : ℚ → Except PyError ℚ) (tol : ℚ) (M : ℤ) (rem : ℕ) (a b fa fb : ℚ) (it : ℕ)
        (acc : List IterRec) (last : Option (ℚ × ℚ)) (e : PyError),
        func ((a + b) / 2) = .error e →
        bisectionLoop func tol M (rem + 1) a b fa fb it acc last = .error e) ∧
    (∀ (func : ℚ → Except PyError ℚ) (tol : ℚ) (M : ℤ) (rem : ℕ) (a b fa fb : ℚ) (it : ℕ)
        (acc : List IterRec) (last : Option (ℚ × ℚ)) (e : PyError),
        fb - fa ≠ 0 →
        func ((a * fb - b * fa) / (fb - fa)) = .error e →
        regulaLoop func tol M (rem + 1) a b fa fb it acc last = .error e) ∧
    (∀ (func : ℚ → Except PyError ℚ) (tol : ℚ) (M : ℤ) (rem : ℕ) (prev curr : ℚ) (it : ℕ)
        (acc : List IterRec) (last : Option (ℚ × ℚ)) (e : PyError),
        func prev = .error e →
        secantLoop func tol M (rem + 1) prev curr it acc last = .error e) ∧
    (∀ (func derivative : ℚ → Except PyError ℚ) (tol : ℚ) (M : ℤ) (rem : ℕ) (current : ℚ)
        (it : ℕ) (acc : List IterRec) (last : Option (ℚ × ℚ)) (e : PyError),
        func current = .error e →
        newtonLoop func derivative tol M (rem + 1) current it acc last = .error e) ∧
    (∀ (g_func : ℚ → Except PyError ℚ) (tol : ℚ) (M : ℤ) (rem : ℕ) (current : ℚ) (it : ℕ)
        (acc : List IterRec) (last : Option (ℚ × ℚ)) (e : PyError),
        g_func current = .error e →
        fixedPointLoop g_func tol M (rem + 1) current it acc last = .error e) ∧
    (∀ (func : ℚ → Except PyError ℚ) (delta tol : ℚ) (M : ℤ) (rem : ℕ) (current : ℚ) (it : ℕ)
        (acc : List IterRec) (last : Option (ℚ × ℚ)) (e : PyError),
        func current = .error e →
        modSecantLoop func delta tol M (rem + 1) current it acc last = .error e) ∧
    (∀ (func : ℚ → Except PyError ℚ) (a b tol : ℚ) (M : ℤ) (e : PyError),
        bisection func a b tol M = .error e →
        e = .valueError bisectionBracketMsg ∨ e = .unboundLocal ∨ ∃ q, func q = .error e) ∧
    (∀ (func : ℚ → Except PyError ℚ) (a b tol : ℚ) (M : ℤ) (e : PyError),
        regula_falsi func a b tol M = .error e →
        e = .valueError regulaBracketMsg ∨ e = .raised .zeroDivisionError ∨
          e = .unboundLocal ∨ ∃ q, func q = .error e) ∧
    (∀ (func : ℚ → Except PyError ℚ) (x0 x1 tol : ℚ) (M : ℤ) (e : PyError),
        secant func x0 x1 tol M = .error e →
        e = .valueError secantDenomMsg ∨ e = .unboundLocal ∨ ∃ q, func q = .error e) ∧
    (∀ (func derivative : ℚ → Except PyError ℚ) (x0 tol : ℚ) (M : ℤ) (e : PyError),
        newton_raphson func derivative x0 tol M = .error e →
        e = .valueError newtonDerivMsg ∨ e = .unboundLocal ∨ (∃ q, func q = .error e) ∨
          ∃ q, derivative q = .error e) ∧
    (∀ (g_func : ℚ → Except PyError ℚ) (x0 tol : ℚ) (M : ℤ) (e : PyError),
        fixed_point g_func x0 tol M = .error e →
        e = .unboundLocal ∨ ∃ q, g_func q = .error e) ∧
    (∀ (func : ℚ → Except PyError ℚ) (x0 delta tol : ℚ) (M : ℤ) (e : PyError),
        modified_secant func x0 delta tol M = .error e →
        e = .valueError modSecDeltaMsg ∨ e = .valueError modSecDenomMsg ∨
          e = .unboundLocal ∨ ∃ q, func q = .error e) := by
  refine ⟨?_, ?_, ?_, ?_, ?_, ?_, ?_, ?_, ?_, ?_, ?_, ?_, ?_, ?_, ?_⟩
  · intro p x exc he
    simp only [funcCall]
    rw [he]
  · intro p x v hv hc
    simp only [funcCall]
    rw [hv]
    simp only [hc, if_true]
  · intro x
    rfl
  · intro func tol M rem a b fa fb it acc last e herr
    simp only [bisectionLoop]
    rw [herr]
  · intro func tol M rem a b fa fb it acc last e hden herr
    simp only [regulaLoop]
    rw [if_neg hden, herr]
  · intro func tol M rem prev curr it acc last e herr
    simp only [secantLoop]
    rw [herr]
  · intro func derivative tol M rem current it acc last e herr
    simp only [newtonLoop]
    rw [herr]
  · intro g_func tol M rem current it acc last e herr
    simp only [fixedPointLoop]
    rw [herr]
  · intro func delta tol M rem current it acc last e herr
    simp only [modSecantLoop]
    rw [herr]
  · intro func a b tol M e hrun
    simp only [bisection] at hrun
    rcases hfa : func a with exc | fa <;> rw [hfa] at hrun
    · simp only [Except.error.injEq] at hrun
      exact Or.inr (Or.inr ⟨a, by rw [hfa, hrun]⟩)
    · simp only at hrun
      rcases hfb : func b with exc | fb <;> rw [hfb] at hrun
      · simp only [Except.error.injEq] at hrun
        exact Or.inr (Or.inr ⟨b, by rw [hfb, hrun]⟩)
      · simp only at hrun
        by_cases hbr : fa * fb ≥ 0
        · rw [if_pos hbr] at hrun
          simp only [Except.error.injEq] at hrun
          exact Or.inl hrun.symm
        · rw [if_neg hbr] at hrun
          rcases bisectionLoop_error_origin func tol M M.toNat a b fa fb 1 [] none e hrun with
            h | h
          · exact Or.inr (Or.inl h)
          · exact Or.inr (Or.inr h)
  · intro func a b tol M e hrun
    simp only [regula_falsi] at hrun
    rcases hfa : func a with exc | fa <;> rw [hfa] at hrun
    · simp only [Except.error.injEq] at hrun
      exact Or.inr (Or.inr (Or.inr ⟨a, by rw [hfa, hrun]⟩))
    · simp only at hrun
      rcases hfb : func b with exc | fb <;> rw [hfb] at hrun
      · simp only [Except.error.injEq] at hrun
        exact Or.inr (Or.inr (Or.inr ⟨b, by rw [hfb, hrun]⟩))
      · simp only at hrun
        by_cases hbr : fa * fb ≥ 0
        · rw [if_pos hbr] at hrun
          simp only [Except.error.injEq] at hrun
          exact Or.inl hrun.symm
        · rw [if_neg hbr] at hrun
          rcases regulaLoop_error_origin func tol M M.toNat a b fa fb 1 [] none e hrun with
            h | h | h
          · exact Or.inr (Or.inr (Or.inl h))
          · exact Or.inr (Or.inl h)
          · exact Or.inr (Or.inr (Or.inr h))
  · intro func x0 x1 tol M e hrun
    rcases secantLoop_error_origin func tol M M.toNat x0 x1 1 [] none e hrun with h | h | h
    · exact Or.inr (Or.inl h)
    · exact Or.inl h
    · exact Or.inr (Or.inr h)
  · intro func derivative x0 tol M e hrun
    rcases newtonLoop_error_origin func derivative tol M M.toNat x0 1 [] none e hrun with
      h | h | h | h
    · exact Or.inr (Or.inl h)
    · exact Or.inl h
    · exact Or.inr (Or.inr (Or.inl h))
    · exact Or.inr (Or.inr (Or.inr h))
  · intro g_func x0 tol M e hrun
    exact fixedPointLoop_error_origin g_func tol M M.toNat x0 1 [] none e hrun
  · intro func x0 delta tol M e hrun
    simp only [modified_secant] at hrun
    by_cases hdelta : delta = 0
    · rw [if_pos hdelta] at hrun
      simp only [Except.error.injEq] at hrun
      exact Or.inl hrun.symm
    · rw [if_neg hdelta] at hrun
      rcases modSecantLoop_error_origin func delta tol M M.toNat x0 1 [] none e hrun with
        h | h | h
      · exact Or.inr (Or.inr (Or.inl h))
      · exact Or.inr (Or.inl h)
      · exact Or.inr (Or.inr (Or.inr h))

/-- Witness for C5 (amended): every conjunct instantiated — the unknown
name `y` at `x = 0`, the imaginary literal `2j` at `x = 1`, `sqrt(-1)` at
`x = 7`, a failing evaluation aborting each of the six loops from a
mid-run loop state, and the six error-origin characterisations applied to
concrete erroring solve calls. -/
theorem c5_evaluation_errors_witness :
    (funcCall ⟨.name ("y"), allowedNames⟩ 0 =
      .error (.functionParserEval 0 (.nameError ("y")))) ∧
    funcCall ⟨.imag 2, allowedNames⟩ 1 = .error .functionParserComplex ∧
    (funcCall ⟨.call (.name ("sqrt")) (.neg (.num 1)), allowedNames⟩ 7 =
      .error (.functionParserEval 7 (.valueErrorExc mathDomainMsg))) ∧
    (bisectionLoop (fun _ => .error (.functionParserEval 0 (.nameError ("y")))) 1 5 1
        0 1 0 1 2 [] none =
      .error (.functionParserEval 0 (.nameError ("y")))) ∧
    (regulaLoop (fun _ => .error (.functionParserEval 0 (.nameError ("y")))) 1 5 1
        0 1 0 1 2 [] none =
      .error (.functionParserEval 0 (.nameError ("y")))) ∧
    (secantLoop (fun _ => .error (.functionParserEval 0 (.nameError ("y")))) 1 5 1
        0 1 2 [] none =
      .error (.functionParserEval 0 (.nameError ("y")))) ∧
    (newtonLoop (fun _ => .error (.functionParserEval 0 (.nameError ("y"))))
        (totalFn (fun _ => 1)) 1 5 1 0 2 [] none =
      .error (.functionParserEval 0 (.nameError ("y")))) ∧
    (fixedPointLoop (fun _ => .error (.functionParserEval 0 (.nameError ("y")))) 1 5 1
        0 2 [] none =
      .error (.functionParserEval 0 (.nameError ("y")))) ∧
    (modSecantLoop (fun _ => .error (.functionParserEval 0 (.nameError ("y")))) 1 1 5 1
        0 2 [] none =
      .error (.functionParserEval 0 (.nameError ("y")))) ∧
    (PyError.unboundLocal = .valueError bisectionBracketMsg ∨
      PyError.unboundLocal = .unboundLocal ∨
      ∃ q, totalFn (fun q => q) q = .error PyError.unboundLocal) ∧
    (PyError.unboundLocal = .valueError regulaBracketMsg ∨
      PyError.unboundLocal = .raised .zeroDivisionError ∨
      PyError.unboundLocal = .unboundLocal ∨
      ∃ q, totalFn (fun q => q) q = .error PyError.unboundLocal) ∧
    (PyError.unboundLocal = .valueError secantDenomMsg ∨
      PyError.unboundLocal = .unboundLocal ∨
      ∃ q, totalFn (fun q => q) q = .error PyError.unboundLocal) ∧
    (PyError.unboundLocal = .valueError newtonDerivMsg ∨
      PyError.unboundLocal = .unboundLocal ∨
      (∃ q, totalFn (fun q => q) q = .error PyError.unboundLocal) ∨
      ∃ q, totalFn (fun _ => (1 : ℚ)) q = .error PyError.unboundLocal) ∧
    (PyError.unboundLocal = .unboundLocal ∨
      ∃ q, totalFn (fun q => q + 1) q = .error PyError.unboundLocal) ∧
    (PyError.unboundLocal = .valueError modSecDeltaMsg ∨
      PyError.unboundLocal = .valueError modSecDenomMsg ∨
      PyError.unboundLocal = .unboundLocal ∨
      ∃ q, totalFn (fun q => q) q = .error PyError.unboundLocal) := by
  obtain ⟨h1, h2, h3, h4, h5, h6, h7, h8, h9, h10, h11, h12, h13, h14, h15⟩ :=
    c5_evaluation_errors
  refine ⟨?_, ?_, h3 7, ?_, ?_, ?_, ?_, ?_, ?_, ?_, ?_, ?_, ?_, ?_, ?_⟩
  · exact h1 ⟨.name ("y"), allowedNames⟩ 0 (.nameError ("y"))
      (by simp [evalExpr, evalName, allowedNames, List.lookup])
  · exact h2 ⟨.imag 2, allowedNames⟩ 1 (.complexVal 0 2) rfl rfl
  · exact h4 _ 1 5 0 0 1 0 1 2 [] none _ rfl
  · exact h5 _ 1 5 0 0 1 0 1 2 [] none _ (by norm_num) rfl
  · exact h6 _ 1 5 0 0 1 2 [] none _ rfl
  · exact h7 _ (totalFn (fun _ => 1)) 1 5 0 0 2 [] none _ rfl
  · exact h8 _ 1 5 0 0 2 [] none _ rfl
  · exact h9 _ 1 1 5 0 0 2 [] none _ rfl
  · exact h10 (totalFn (fun q => q)) (-1) 1 1 0 .unboundLocal
      (by norm_num [bisection, bisectionLoop, totalFn])
  · exact h11 (totalFn (fun q => q)) (-1) 1 1 0 .unboundLocal
      (by norm_num [regula_falsi, regulaLoop, totalFn])
  · exact h12 (totalFn (fun q => q)) 0 1 1 0 .unboundLocal
      (by norm_num [secant, secantLoop, totalFn])
  · exact h13 (totalFn (fun q => q)) (totalFn (fun _ => 1)) 1 1 0 .unboundLocal
      (by norm_num [newton_raphson, newtonLoop, totalFn])
  · exact h14 (totalFn (fun q => q + 1)) 0 1 0 .unboundLocal
      (by norm_num [fixed_point, fixedPointLoop, totalFn])
  · exact h15 (totalFn (fun q => q)) 1 1 1 0 .unboundLocal
      (by norm_num [modified_secant, modSecantLoop, totalFn])

/-- C8: parsing the same source twice yields Functions that agree at every
input (the closure is a pure value of its captured environment and compiled
expression, so two parses of one source are interchangeable). -/
theorem c8_parse_idempotent (s : PySource) (p q : ParsedFunction)
    (hp : parse_function s = .ok p) (hq : parse_function s = .ok q) :
    ∀ x, funcCall p x = funcCall q x := by
  rw [hp, Except.ok.injEq] at hq
  subst hq
  intro x
  rfl

/-- Witness for C8 on the source `x` at input 5. -/
theorem c8_parse_idempotent_witness :
    funcCall ⟨.name ("x"), allowedNames⟩ 5 = funcCall ⟨.name ("x"), allowedNames⟩ 5 :=
  c8_parse_idempotent (.expr (.name ("x"))) ⟨.name ("x"), allowedNames⟩
    ⟨.name ("x"), allowedNames⟩ rfl rfl 5

/-- C10: the tuple expression `(x, 1)` is accepted at parse time, evaluates
successfully to a non-complex value, and the returned Function fails in the
`float(value)` conversion — which sits outside the `try` block — with a
`TypeError` that is NOT a `FunctionParserError`. -/
theorem c10_float_conversion_unwrapped :
    parse_function (.expr (.pair (.name ("x")) (.num 1))) =
        .ok ⟨.pair (.name ("x")) (.num 1), allowedNames⟩ ∧
    evalExpr allowedNames 0 (.pair (.name ("x")) (.num 1)) =
        .ok (.tuple2 (.float 0) (.float 1)) ∧
    isComplexVal (.tuple2 (.float 0) (.float 1)) = false ∧
    funcCall ⟨.pair (.name ("x")) (.num 1), allowedNames⟩ 0 =
        .error (.raised (.typeError
          ("float argument must be a string or a real number, not tuple"))) ∧
    isFunctionParserError (.raised (.typeError
        ("float argument must be a string or a real number, not tuple"))) = false := by
  refine ⟨rfl, ?_, rfl, ?_, rfl⟩
  · norm_num [evalExpr, evalName]
  · norm_num [funcCall, evalExpr, evalName, isComplexVal, pyFloat]

/-- The fixed-point iteration contract on a trace: starting from `p`, each
record stores the new estimate `g(prev)` as `xn`, the displacement
`g(prev) - prev` as the recorded function value, and `|g(prev) - prev|` as
the error metric, chaining on the recorded estimates. -/
def fpChain (G : ℚ → ℚ) : ℚ → List IterRec → Prop
  | _, [] => True
  | p, r :: rs => r.xn = G p ∧ r.fxn = G p - p ∧ r.error = |G p - p| ∧ fpChain G r.xn rs

/-- Extending a fixed-point chain whose current point is `cur` by the record
of one more iteration keeps it a chain. -/
theorem fpChain_append (G : ℚ → ℚ) :
    ∀ (acc : List IterRec) (p cur : ℚ) (it : ℕ),
      fpChain G p acc →
      ((acc = [] ∧ cur = p) ∨ (∃ r, acc.getLast? = some r ∧ r.xn = cur)) →
      fpChain G p (acc ++ [⟨it, G cur, G cur - cur, |G cur - cur|⟩]) := by
  intro acc
  induction acc with
  | nil =>
      intro p cur it _ hend
      rcases hend with ⟨_, hcur⟩ | ⟨r, hr, _⟩
      · subst hcur
        exact ⟨rfl, rfl, rfl, trivial⟩
      · simp at hr
  | cons hd tl ih =>
      intro p cur it hch hend
      obtain ⟨h1, h2, h3, h4⟩ := hch
      refine ⟨h1, h2, h3, ?_⟩
      rcases hend with ⟨hnil, _⟩ | ⟨r, hr, hxn⟩
      · cases hnil
      · rcases tl with _ | ⟨t1, ts⟩
        · simp only [List.getLast?_singleton, Option.some.injEq] at hr
          subst hr
          exact ih hd.xn cur it h4 (Or.inl ⟨rfl, hxn.symm⟩)
        · rw [List.getLast?_cons_cons] at hr
          exact ih hd.xn cur it h4 (Or.inr ⟨r, hr, hxn⟩)

/-- Main characterisation of the fixed-point loop (claim C7): under a total
evaluated function the loop always returns a `MethodResult` whose trace is a
fixed-point chain, which stopped early only because `error < tol`, every
earlier record failing that (and only that) test. -/
theorem fixedPointLoop_chain (G : ℚ → ℚ) (tol : ℚ) (M : ℤ) :
    ∀ (rem : ℕ) (current : ℚ) (it : ℕ) (acc : List IterRec) (last : Option (ℚ × ℚ)) (x0 : ℚ),
      fpChain G x0 acc →
      ((acc = [] ∧ current = x0) ∨ (∃ r, acc.getLast? = some r ∧ r.xn = current)) →
      (∀ r ∈ acc, ¬ r.error < tol) →
      (1 ≤ rem ∨ last.isSome) →
      ∃ res, fixedPointLoop (totalFn G) tol M rem current it acc last = .ok res ∧
        fpChain G x0 res.iterations ∧
        (res.error < tol ∨ res.iterations_used = M) ∧
        (∀ r ∈ res.iterations.dropLast, ¬ r.error < tol) := by
  intro rem
  induction rem with
  | zero =>
      intro current it acc last x0 hch hend hns hfuel
      rcases last with _ | ⟨c, e⟩
      · rcases hfuel with h | h
        · omega
        · simp at h
      · refine ⟨⟨acc, c, e, M⟩, by simp [fixedPointLoop], hch, Or.inr rfl, ?_⟩
        intro r hr
        exact hns r (List.dropLast_subset acc hr)
  | succ rem ih =>
      intro current it acc last x0 hch hend hns _
      simp only [fixedPointLoop, totalFn]
      by_cases hstop : |G current - current| < tol
      · rw [if_pos hstop]
        refine ⟨_, rfl, ?_, Or.inl hstop, ?_⟩
        · exact fpChain_append G acc x0 current it hch hend
        · intro r hr
          rw [dropLast_append_singleton] at hr
          exact hns r hr
      · rw [if_neg hstop]
        refine ih (G current) (it + 1) _ _ x0
          (fpChain_append G acc x0 current it hch hend)
          (Or.inr ⟨⟨it, G current, G current - current, |G current - current|⟩,
            getLast?_append_singleton acc _, rfl⟩) ?_ (Or.inr rfl)
        intro r hr
        rcases List.mem_append.mp hr with h | h
        · exact hns r h
        · rw [List.mem_singleton] at h
          subst h
          exact hstop

/-- C7: `fixed_point` computes each new estimate as `g(x_n)`, records the
displacement `g(x_n) − x_n` as the step's function value, uses
`|x_{n+1} − x_n|` as the error metric, and stops early only when
`error < tol` (there is no residual stopping condition): every non-final
record fails the `error < tol` test, and an early stop implies the final
error is below `tol`. -/
theorem c7_fixed_point_protocol (G : ℚ → ℚ) (x0 tol : ℚ) (M : ℤ) (hM : 1 ≤ M) :
    ∃ res, fixed_point (totalFn G) x0 tol M = .ok res ∧
      fpChain G x0 res.iterations ∧
      (res.error < tol ∨ res.iterations_used = M) ∧
      (∀ r ∈ res.iterations.dropLast, ¬ r.error < tol) := by
  obtain ⟨res, hrun, h1, h2, h3⟩ := fixedPointLoop_chain G tol M M.toNat x0 1 [] none x0
    trivial (Or.inl ⟨rfl, rfl⟩) (by intro r hr; simp at hr) (Or.inl (by omega))
  exact ⟨res, by simpa [fixed_point] using hrun, h1, h2, h3⟩

/-- Witness for C7: `g(x) = x + 1`, `x0 = 0`, `tol = 1`, two iterations. -/
theorem c7_fixed_point_protocol_witness :
    ∃ res, fixed_point (totalFn (fun q => q + 1)) 0 1 2 = .ok res ∧
      fpChain (fun q => q + 1) 0 res.iterations ∧
      (res.error < 1 ∨ res.iterations_used = 2) ∧
      (∀ r ∈ res.iterations.dropLast, ¬ r.error < 1) :=
  c7_fixed_point_protocol (fun q => q + 1) 0 1 2 (by norm_num)

/-- "The stopping predicate is never satisfied within the given number of
bisection iterations": at each pass neither `error < tol` nor
`|f(c)| < tol` holds, following the same bracket replacement as the code. -/
def bisectNoStop (F : ℚ → ℚ) (tol : ℚ) : ℕ → ℚ → ℚ → Prop
  | 0, _, _ => True
  | rem + 1, a, b =>
      ¬ (|b - a| / 2 < tol ∨ |F ((a + b) / 2)| < tol) ∧
      (if F a * F ((a + b) / 2) < 0 then bisectNoStop F tol rem a ((a + b) / 2)
       else bisectNoStop F tol rem ((a + b) / 2) b)

/-- Non-stopping (and non-degenerate) condition for the regula-falsi loop:
the denominator `f(b) - f(a)` is non-zero and the stopping test fails at
each pass. -/
def regulaNoStop (F : ℚ → ℚ) (tol : ℚ) : ℕ → ℚ → ℚ → Prop
  | 0, _, _ => True
  | rem + 1, a, b =>
      F b - F a ≠ 0 ∧
      ¬ (|F ((a * F b - b * F a) / (F b - F a))| < tol ∨
          |F ((a * F b - b * F a) / (F b - F a))| < tol) ∧
      (if F a * F ((a * F b - b * F a) / (F b - F a)) < 0 then
        regulaNoStop F tol rem a ((a * F b - b * F a) / (F b - F a))
       else regulaNoStop F tol rem ((a * F b - b * F a) / (F b - F a)) b)

/-- If the bisection stopping predicate never fires, the loop exhausts its
iterations and returns normally with `iterations_used = max_iter` and the
last computed estimate and error. -/
theorem bisectionLoop_exhaust (F : ℚ → ℚ) (tol : ℚ) (M : ℤ) :
    ∀ (rem : ℕ) (a b : ℚ) (it : ℕ) (acc : List IterRec) (last : Option (ℚ × ℚ)),
      bisectNoStop F tol rem a b →
      (match last with
       | none => True
       | some (c, e) => ∃ r, acc.getLast? = some r ∧ r.xn = c ∧ r.error = e) →
      (1 ≤ rem ∨ last.isSome) →
      ∃ res, bisectionLoop (totalFn F) tol M rem a b (F a) (F b) it acc last = .ok res ∧
        res.iterations_used = M ∧
        ∃ r, res.iterations.getLast? = some r ∧ res.root = r.xn ∧ res.error = r.error := by
  intro rem
  induction rem with
  | zero =>
      intro a b it acc last hns hlast hfuel
      rcases last with _ | ⟨c, e⟩
      · rcases hfuel with h | h
        · omega
        · simp at h
      · obtain ⟨r, hr, hxn, herr⟩ := hlast
        exact ⟨⟨acc, c, e, M⟩, by simp [bisectionLoop], rfl, r, hr, hxn.symm, herr.symm⟩
  | succ rem ih =>
      intro a b it acc last hns hlast hfuel
      obtain ⟨hstop, hbranch⟩ := hns
      simp only [bisectionLoop, totalFn]
      rw [if_neg hstop]
      by_cases hsign : F a * F ((a + b) / 2) < 0
      · rw [if_pos hsign]
        rw [if_pos hsign] at hbranch
        exact ih a ((a + b) / 2) (it + 1) _ _ hbranch
          ⟨⟨it, (a + b) / 2, F ((a + b) / 2), |b - a| / 2⟩,
            getLast?_append_singleton acc _, rfl, rfl⟩ (Or.inr rfl)
      · rw [if_neg hsign]
        rw [if_neg hsign] at hbranch
        exact ih ((a + b) / 2) b (it + 1) _ _ hbranch
          ⟨⟨it, (a + b) / 2, F ((a + b) / 2), |b - a| / 2⟩,
            getLast?_append_singleton acc _, rfl, rfl⟩ (Or.inr rfl)

/-- Exhaustion of the regula-falsi loop when the predicate never fires and
no step degenerates. -/
theorem regulaLoop_exhaust (F : ℚ → ℚ) (tol : ℚ) (M : ℤ) :
    ∀ (rem : ℕ) (a b : ℚ) (it : ℕ) (acc : List IterRec) (last : Option (ℚ × ℚ)),
      regulaNoStop F tol rem a b →
      (match last with
       | none => True
       | some (c, e) => ∃ r, acc.getLast? = some r ∧ r.xn = c ∧ r.error = e) →
      (1 ≤ rem ∨ last.isSome) →
      ∃ res, regulaLoop (totalFn F) tol M rem a b (F a) (F b) it acc last = .ok res ∧
        res.iterations_used = M ∧
        ∃ r, res.iterations.getLast? = some r ∧ res.root = r.xn ∧ res.error = r.error := by
  intro rem
  induction rem with
  | zero =>
      intro a b it acc last hns hlast hfuel
      rcases last with _ | ⟨c, e⟩
      · rcases hfuel with h | h
        · omega
        · simp at h
      · obtain ⟨r, hr, hxn, herr⟩ := hlast
        exact ⟨⟨acc, c, e, M⟩, by simp [regulaLoop], rfl, r, hr, hxn.symm, herr.symm⟩
  | succ rem ih =>
      intro a b it acc last hns hlast hfuel
      obtain ⟨hden, hstop, hbranch⟩ := hns
      simp only [regulaLoop, totalFn]
      rw [if_neg hden]
      rw [if_neg hstop]
      by_cases hsign : F a * F ((a * F b - b * F a) / (F b - F a)) < 0
      · rw [if_pos hsign]
        rw [if_pos hsign] at hbranch
        exact ih a ((a * F b - b * F a) / (F b - F a)) (it + 1) _ _ hbranch
          ⟨⟨it, (a * F b - b * F a) / (F b - F a), F ((a * F b - b * F a) / (F b - F a)),
              |F ((a * F b - b * F a) / (F b - F a))|⟩,
            getLast?_append_singleton acc _, rfl, rfl⟩ (Or.inr rfl)
      · rw [if_neg hsign]
        rw [if_neg hsign] at hbranch
        exact ih ((a * F b - b * F a) / (F b - F a)) b (it + 1) _ _ hbranch
          ⟨⟨it, (a * F b - b * F a) / (F b - F a), F ((a * F b - b * F a) / (F b - F a)),
              |F ((a * F b - b * F a) / (F b - F a))|⟩,
            getLast?_append_singleton acc _, rfl, rfl⟩ (Or.inr rfl)

/-- Non-stopping / non-degenerate condition for the secant loop. -/
def secantNoStop (F : ℚ → ℚ) (tol : ℚ) : ℕ → ℚ → ℚ → Prop
  | 0, _, _ => True
  | rem + 1, prev, curr =>
      F curr - F prev ≠ 0 ∧
      ¬ (|curr - F curr * (curr - prev) / (F curr - F prev) - curr| < tol ∨
          |F (curr - F curr * (curr - prev) / (F curr - F prev))| < tol) ∧
      secantNoStop F tol rem curr (curr - F curr * (curr - prev) / (F curr - F prev))

/-- Non-stopping / non-degenerate condition for the Newton-Raphson loop. -/
def newtonNoStop (F D : ℚ → ℚ) (tol : ℚ) : ℕ → ℚ → Prop
  | 0, _ => True
  | rem + 1, current =>
      D current ≠ 0 ∧
      ¬ (|current - F current / D current - current| < tol ∨
          |F (current - F current / D current)| < tol) ∧
      newtonNoStop F D tol rem (current - F current / D current)

/-- Non-stopping condition for the fixed-point loop. -/
def fixedNoStop (G : ℚ → ℚ) (tol : ℚ) : ℕ → ℚ → Prop
  | 0, _ => True
  | rem + 1, current =>
      ¬ |G current - current| < tol ∧ fixedNoStop G tol rem (G current)

/-- Non-stopping / non-degenerate condition for the modified-secant loop. -/
def modSecNoStop (F : ℚ → ℚ) (delta tol : ℚ) : ℕ → ℚ → Prop
  | 0, _ => True
  | rem + 1, current =>
      F (current + delta * current) - F current ≠ 0 ∧
      ¬ (|current - delta * current * F current / (F (current + delta * current) - F current) -
            current| < tol ∨
          |F (current - delta * current * F current /
            (F (current + delta * current) - F current))| < tol) ∧
      modSecNoStop F delta tol rem
        (current - delta * current * F current / (F (current + delta * current) - F current))

/-- Exhaustion of the secant loop when the predicate never fires and no
denominator degenerates. -/
theorem secantLoop_exhaust (F : ℚ → ℚ) (tol : ℚ) (M : ℤ) :
    ∀ (rem : ℕ) (prev curr : ℚ) (it : ℕ) (acc : List IterRec) (last : Option (ℚ × ℚ)),
      secantNoStop F tol rem prev curr →
      (match last with
       | none => True
       | some (c, e) => ∃ r, acc.getLast? = some r ∧ r.xn = c ∧ r.error = e) →
      (1 ≤ rem ∨ last.isSome) →
      ∃ res, secantLoop (totalFn F) tol M rem prev curr it acc last = .ok res ∧
        res.iterations_used = M ∧
        ∃ r, res.iterations.getLast? = some r ∧ res.root = r.xn ∧ res.error = r.error := by
  intro rem
  induction rem with
  | zero =>
      intro prev curr it acc last hns hlast hfuel
      rcases last with _ | ⟨c, e⟩
      · rcases hfuel with h | h
        · omega
        · simp at h
      · obtain ⟨r, hr, hxn, herr⟩ := hlast
        exact ⟨⟨acc, c, e, M⟩, by simp [secantLoop], rfl, r, hr, hxn.symm, herr.symm⟩
  | succ rem ih =>
      intro prev curr it acc last hns hlast hfuel
      obtain ⟨hden, hstop, hrest⟩ := hns
      simp only [secantLoop, totalFn]
      rw [if_neg hden]
      rw [if_neg hstop]
      exact ih curr (curr - F curr * (curr - prev) / (F curr - F prev)) (it + 1) _ _ hrest
        ⟨⟨it, curr - F curr * (curr - prev) / (F curr - F prev),
            F (curr - F curr * (curr - prev) / (F curr - F prev)),
            |curr - F curr * (curr - prev) / (F curr - F prev) - curr|⟩,
          getLast?_append_singleton acc _, rfl, rfl⟩ (Or.inr rfl)

/-- Exhaustion of the Newton-Raphson loop when the predicate never fires
and the derivative never vanishes at the iterates. -/
theorem newtonLoop_exhaust (F D : ℚ → ℚ) (tol : ℚ) (M : ℤ) :
    ∀ (rem : ℕ) (current : ℚ) (it : ℕ) (acc : List IterRec) (last : Option (ℚ × ℚ)),
      newtonNoStop F D tol rem current →
      (match last with
       | none => True
       | some (c, e) => ∃ r, acc.getLast? = some r ∧ r.xn = c ∧ r.error = e) →
      (1 ≤ rem ∨ last.isSome) →
      ∃ res, newtonLoop (totalFn F) (totalFn D) tol M rem current it acc last = .ok res ∧
        res.iterations_used = M ∧
        ∃ r, res.iterations.getLast? = some r ∧ res.root = r.xn ∧ res.error = r.error := by
  intro rem
  induction rem with
  | zero =>
      intro current it acc last hns hlast hfuel
      rcases last with _ | ⟨c, e⟩
      · rcases hfuel with h | h
        · omega
        · simp at h
      · obtain ⟨r, hr, hxn, herr⟩ := hlast
        exact ⟨⟨acc, c, e, M⟩, by simp [newtonLoop], rfl, r, hr, hxn.symm, herr.symm⟩
  | succ rem ih =>
      intro current it acc last hns hlast hfuel
      obtain ⟨hden, hstop, hrest⟩ := hns
      simp only [newtonLoop, totalFn]
      rw [if_neg hden]
      rw [if_neg hstop]
      exact ih (current - F current / D current) (it + 1) _ _ hrest
        ⟨⟨it, current - F current / D current, F (current - F current / D current),
            |current - F current / D current - current|⟩,
          getLast?_append_singleton acc _, rfl, rfl⟩ (Or.inr rfl)

/-- Exhaustion of the fixed-point loop when `error < tol` never fires. -/
theorem fixedPointLoop_exhaust (G : ℚ → ℚ) (tol : ℚ) (M : ℤ) :
    ∀ (rem : ℕ) (current : ℚ) (it : ℕ) (acc : List IterRec) (last : Option (ℚ × ℚ)),
      fixedNoStop G tol rem current →
      (match last with
       | none => True
       | some (c, e) => ∃ r, acc.getLast? = some r ∧ r.xn = c ∧ r.error = e) →
      (1 ≤ rem ∨ last.isSome) →
      ∃ res, fixedPointLoop (totalFn G) tol M rem current it acc last = .ok res ∧
        res.iterations_used = M ∧
        ∃ r, res.iterations.getLast? = some r ∧ res.root = r.xn ∧ res.error = r.error := by
  intro rem
  induction rem with
  | zero =>
      intro current it acc last hns hlast hfuel
      rcases last with _ | ⟨c, e⟩
      · rcases hfuel with h | h
        · omega
        · simp at h
      · obtain ⟨r, hr, hxn, herr⟩ := hlast
        exact ⟨⟨acc, c, e, M⟩, by simp [fixedPointLoop], rfl, r, hr, hxn.symm, herr.symm⟩
  | succ rem ih =>
      intro current it acc last hns hlast hfuel
      obtain ⟨hstop, hrest⟩ := hns
      simp only [fixedPointLoop, totalFn]
      rw [if_neg hstop]
      exact ih (G current) (it + 1) _ _ hrest
        ⟨⟨it, G current, G current - current, |G current - current|⟩,
          getLast?_append_singleton acc _, rfl, rfl⟩ (Or.inr rfl)

/-- Exhaustion of the modified-secant loop when the predicate never fires
and no denominator degenerates. -/
theorem modSecantLoop_exhaust (F : ℚ → ℚ) (delta tol : ℚ) (M : ℤ) :
    ∀ (rem : ℕ) (current : ℚ) (it : ℕ) (acc : List IterRec) (last : Option (ℚ × ℚ)),
      modSecNoStop F delta tol rem current →
      (match last with
       | none => True
       | some (c, e) => ∃ r, acc.getLast? = some r ∧ r.xn = c ∧ r.error = e) →
      (1 ≤ rem ∨ last.isSome) →
      ∃ res, modSecantLoop (totalFn F) delta tol M rem current it acc last = .ok res ∧
        res.iterations_used = M ∧
        ∃ r, res.iterations.getLast? = some r ∧ res.root = r.xn ∧ res.error = r.error := by
  intro rem
  induction rem with
  | zero =>
      intro current it acc last hns hlast hfuel
      rcases last with _ | ⟨c, e⟩
      · rcases hfuel with h | h
        · omega
        · simp at h
      · obtain ⟨r, hr, hxn, herr⟩ := hlast
        exact ⟨⟨acc, c, e, M⟩, by simp [modSecantLoop], rfl, r, hr, hxn.symm, herr.symm⟩
  | succ rem ih =>
      intro current it acc last hns hlast hfuel
      obtain ⟨hden, hstop, hrest⟩ := hns
      simp only [modSecantLoop, totalFn]
      rw [if_neg hden]
      rw [if_neg hstop]
      exact ih (current - delta * current * F current /
          (F (current + delta * current) - F current)) (it + 1) _ _ hrest
        ⟨⟨it, current - delta * current * F current / (F (current + delta * current) - F current),
            F (current - delta * current * F current /
              (F (current + delta * current) - F current)),
            |current - delta * current * F current / (F (current + delta * current) - F current) -
              current|⟩,
          getLast?_append_singleton acc _, rfl, rfl⟩ (Or.inr rfl)

/-- C4: for every solve call whose preconditions hold (valid bracket,
non-zero delta, evaluable function, positive iteration cap, and no
degenerate step) and whose stopping predicate is never satisfied within
`max_iter` iterations, the call raises no error and returns normally with
the last computed estimate, the last computed error, and
`iterations_used = max_iter`. -/
theorem c4_nonconvergence_returns_normally :
    (∀ (F : ℚ → ℚ) (a b tol : ℚ) (M : ℤ), 1 ≤ M → F a * F b < 0 →
        bisectNoStop F tol M.toNat a b →
        ∃ res r, bisection (totalFn F) a b tol M = .ok res ∧ res.iterations_used = M ∧
          res.iterations.getLast? = some r ∧ res.root = r.xn ∧ res.error = r.error) ∧
    (∀ (F : ℚ → ℚ) (a b tol : ℚ) (M : ℤ), 1 ≤ M → F a * F b < 0 →
        regulaNoStop F tol M.toNat a b →
        ∃ res r, regula_falsi (totalFn F) a b tol M = .ok res ∧ res.iterations_used = M ∧
          res.iterations.getLast? = some r ∧ res.root = r.xn ∧ res.error = r.error) ∧
    (∀ (F : ℚ → ℚ) (x0 x1 tol : ℚ) (M : ℤ), 1 ≤ M →
        secantNoStop F tol M.toNat x0 x1 →
        ∃ res r, secant (totalFn F) x0 x1 tol M = .ok res ∧ res.iterations_used = M ∧
          res.iterations.getLast? = some r ∧ res.root = r.xn ∧ res.error = r.error) ∧
    (∀ (F D : ℚ → ℚ) (x0 tol : ℚ) (M : ℤ), 1 ≤ M →
        newtonNoStop F D tol M.toNat x0 →
        ∃ res r, newton_raphson (totalFn F) (totalFn D) x0 tol M = .ok res ∧
          res.iterations_used = M ∧
          res.iterations.getLast? = some r ∧ res.root = r.xn ∧ res.error = r.error) ∧
    (∀ (G : ℚ → ℚ) (x0 tol : ℚ) (M : ℤ), 1 ≤ M →
        fixedNoStop G tol M.toNat x0 →
        ∃ res r, fixed_point (totalFn G) x0 tol M = .ok res ∧ res.iterations_used = M ∧
          res.iterations.getLast? = some r ∧ res.root = r.xn ∧ res.error = r.error) ∧
    (∀ (F : ℚ → ℚ) (x0 delta tol : ℚ) (M : ℤ), 1 ≤ M → delta ≠ 0 →
        modSecNoStop F delta tol M.toNat x0 →
        ∃ res r, modified_secant (totalFn F) x0 delta tol M = .ok res ∧
          res.iterations_used = M ∧
          res.iterations.getLast? = some r ∧ res.root = r.xn ∧ res.error = r.error) := by
  refine ⟨?_, ?_, ?_, ?_, ?_, ?_⟩
  · intro F a b tol M hM hbr hns
    simp only [bisection, totalFn]
    rw [if_neg (not_le.mpr hbr)]
    obtain ⟨res, hrun, hused, r, hr, hroot, herr⟩ :=
      bisectionLoop_exhaust F tol M M.toNat a b 1 [] none hns trivial (Or.inl (by omega))
    exact ⟨res, r, hrun, hused, hr, hroot, herr⟩
  · intro F a b tol M hM hbr hns
    simp only [regula_falsi, totalFn]
    rw [if_neg (not_le.mpr hbr)]
    obtain ⟨res, hrun, hused, r, hr, hroot, herr⟩ :=
      regulaLoop_exhaust F tol M M.toNat a b 1 [] none hns trivial (Or.inl (by omega))
    exact ⟨res, r, hrun, hused, hr, hroot, herr⟩
  · intro F x0 x1 tol M hM hns
    obtain ⟨res, hrun, hused, r, hr, hroot, herr⟩ :=
      secantLoop_exhaust F tol M M.toNat x0 x1 1 [] none hns trivial (Or.inl (by omega))
    exact ⟨res, r, hrun, hused, hr, hroot, herr⟩
  · intro F D x0 tol M hM hns
    obtain ⟨res, hrun, hused, r, hr, hroot, herr⟩ :=
      newtonLoop_exhaust F D tol M M.toNat x0 1 [] none hns trivial (Or.inl (by omega))
    exact ⟨res, r, hrun, hused, hr, hroot, herr⟩
  · intro G x0 tol M hM hns
    obtain ⟨res, hrun, hused, r, hr, hroot, herr⟩ :=
      fixedPointLoop_exhaust G tol M M.toNat x0 1 [] none hns trivial (Or.inl (by omega))
    exact ⟨res, r, hrun, hused, hr, hroot, herr⟩
  · intro F x0 delta tol M hM hdelta hns
    simp only [modified_secant]
    rw [if_neg hdelta]
    obtain ⟨res, hrun, hused, r, hr, hroot, herr⟩ :=
      modSecantLoop_exhaust F delta tol M M.toNat x0 1 [] none hns trivial (Or.inl (by omega))
    exact ⟨res, r, hrun, hused, hr, hroot, herr⟩

/-- Witness for C4: with `tol = 0` the stopping predicate can never fire
(both metrics are non-negative), so one-iteration runs of all six methods
exhaust the cap and return normally. -/
theorem c4_nonconvergence_returns_normally_witness :
    (∃ res r, bisection (totalFn (fun q => q)) (-1) 1 0 1 = .ok res ∧
      res.iterations_used = 1 ∧ res.iterations.getLast? = some r ∧
      res.root = r.xn ∧ res.error = r.error) ∧
    (∃ res r, regula_falsi (totalFn (fun q => q)) (-1) 1 0 1 = .ok res ∧
      res.iterations_used = 1 ∧ res.iterations.getLast? = some r ∧
      res.root = r.xn ∧ res.error = r.error) ∧
    (∃ res r, secant (totalFn (fun q => q)) 0 1 0 1 = .ok res ∧
      res.iterations_used = 1 ∧ res.iterations.getLast? = some r ∧
      res.root = r.xn ∧ res.error = r.error) ∧
    (∃ res r, newton_raphson (totalFn (fun q => q)) (totalFn (fun _ => 1)) 1 0 1 = .ok res ∧
      res.iterations_used = 1 ∧ res.iterations.getLast? = some r ∧
      res.root = r.xn ∧ res.error = r.error) ∧
    (∃ res r, fixed_point (totalFn (fun q => q + 1)) 0 0 1 = .ok res ∧
      res.iterations_used = 1 ∧ res.iterations.getLast? = some r ∧
      res.root = r.xn ∧ res.error = r.error) ∧
    (∃ res r, modified_secant (totalFn (fun q => q)) 1 1 0 1 = .ok res ∧
      res.iterations_used = 1 ∧ res.iterations.getLast? = some r ∧
      res.root = r.xn ∧ res.error = r.error) := by
  refine ⟨?_, ?_, ?_, ?_, ?_, ?_⟩
  · refine c4_nonconvergence_returns_normally.1 (fun q => q) (-1) 1 0 1
      (by norm_num) (by norm_num) ⟨by norm_num, ?_⟩
    split <;> trivial
  · refine c4_nonconvergence_returns_normally.2.1 (fun q => q) (-1) 1 0 1
      (by norm_num) (by norm_num) ⟨by norm_num, by norm_num, ?_⟩
    split <;> trivial
  · exact c4_nonconvergence_returns_normally.2.2.1 (fun q => q) 0 1 0 1
      (by norm_num) ⟨by norm_num, by norm_num, trivial⟩
  · exact c4_nonconvergence_returns_normally.2.2.2.1 (fun q => q) (fun _ => 1) 1 0 1
      (by norm_num) ⟨by norm_num, by norm_num, trivial⟩
  · exact c4_nonconvergence_returns_normally.2.2.2.2.1 (fun q => q + 1) 0 0 1
      (by norm_num) ⟨by norm_num, trivial⟩
  · exact c4_nonconvergence_returns_normally.2.2.2.2.2 (fun q => q) 1 1 0 1
      (by norm_num) (by norm_num) ⟨by norm_num, by norm_num, trivial⟩

/-- The bisection loop keeps every returned root inside any interval
`[lo, hi]` containing the current bracket, and returns normally (under a
total evaluated function) either because a stopping test fired at the
returned root or because the cap was exhausted. -/
theorem bisectionLoop_bracket (F : ℚ → ℚ) (tol : ℚ) (M : ℤ) (lo hi : ℚ) :
    ∀ (rem : ℕ) (a b fa fb : ℚ) (it : ℕ) (acc : List IterRec) (last : Option (ℚ × ℚ)),
      lo ≤ a → a ≤ hi → lo ≤ b → b ≤ hi →
      (∀ c e, last = some (c, e) → lo ≤ c ∧ c ≤ hi) →
      (1 ≤ rem ∨ last.isSome) →
      ∃ res, bisectionLoop (totalFn F) tol M rem a b fa fb it acc last = .ok res ∧
        lo ≤ res.root ∧ res.root ≤ hi ∧
        (res.error < tol ∨ |F res.root| < tol ∨ res.iterations_used = M) := by
  intro rem
  induction rem with
  | zero =>
      intro a b fa fb it acc last hla hah hlb hbh hlast hfuel
      rcases last with _ | ⟨c, e⟩
      · rcases hfuel with h | h
        · omega
        · simp at h
      · obtain ⟨h1, h2⟩ := hlast c e rfl
        exact ⟨⟨acc, c, e, M⟩, by simp [bisectionLoop], h1, h2, Or.inr (Or.inr rfl)⟩
  | succ rem ih =>
      intro a b fa fb it acc last hla hah hlb hbh hlast hfuel
      have hcl : lo ≤ (a + b) / 2 := by linarith
      have hch : (a + b) / 2 ≤ hi := by linarith
      simp only [bisectionLoop, totalFn]
      by_cases hstop : |b - a| / 2 < tol ∨ |F ((a + b) / 2)| < tol
      · rw [if_pos hstop]
        refine ⟨_, rfl, hcl, hch, ?_⟩
        rcases hstop with h | h
        · exact Or.inl h
        · exact Or.inr (Or.inl h)
      · rw [if_neg hstop]
        by_cases hsign : fa * F ((a + b) / 2) < 0
        · rw [if_pos hsign]
          exact ih a ((a + b) / 2) fa (F ((a + b) / 2)) (it + 1) _ _ hla hah hcl hch
            (by intro c e heq; cases heq; exact ⟨hcl, hch⟩) (Or.inr rfl)
        · rw [if_neg hsign]
          exact ih ((a + b) / 2) b (F ((a + b) / 2)) fb (it + 1) _ _ hcl hch hlb hbh
            (by intro c e heq; cases heq; exact ⟨hcl, hch⟩) (Or.inr rfl)

/-- Counterexample to C3 as stated: `f(x) = x² − 2` on the valid bracket
`[0, 2]` with `tol = 10⁻⁶` and `max_iterations = 1` returns after its single
iteration with `root = 1` and `error = 1`, satisfying neither
`error < tol` nor `|f(root)| < tol`. -/
theorem c3_counterexample :
    bisection (totalFn (fun q => q * q - 2)) 0 2 (1 / 1000000) 1 =
      .ok ⟨[⟨1, 1, -1, 1⟩], 1, 1, 1⟩ ∧
    ¬ ((1 : ℚ) < 1 / 1000000 ∨ |(1 : ℚ) * 1 - 2| < 1 / 1000000) := by
  constructor
  · norm_num [bisection, bisectionLoop, totalFn]
  · norm_num

/-- The regula-falsi interpolation point lies between the bracket endpoints
whenever the endpoint values have opposite (or one vanishing) signs. -/
theorem regula_c_bounds (a b fa fb c : ℚ) (hfab : fa * fb ≤ 0) (hd : fb - fa ≠ 0)
    (hc : c * (fb - fa) = a * fb - b * fa) :
    min a b ≤ c ∧ c ≤ max a b := by
  have h1 : (c - a) * (fb - fa) = fa * (a - b) := by rw [sub_mul, hc]; ring
  have h2 : (c - b) * (fb - fa) = fb * (a - b) := by rw [sub_mul, hc]; ring
  have hd2 : 0 < (fb - fa) ^ 2 := by positivity
  have h4 : (c - a) * (c - b) * (fb - fa) ^ 2 = fa * fb * (a - b) ^ 2 := by
    linear_combination ((c - b) * (fb - fa)) * h1 + (fa * (a - b)) * h2
  have h5 : fa * fb * (a - b) ^ 2 ≤ 0 := by nlinarith [sq_nonneg (a - b)]
  have h6 : (c - a) * (c - b) ≤ 0 := by nlinarith [hd2, h4, h5]
  constructor
  · rcases le_total a b with hab | hab
    · rw [min_eq_left hab]
      nlinarith [h6]
    · rw [min_eq_right hab]
      nlinarith [h6]
  · rcases le_total a b with hab | hab
    · rw [max_eq_right hab]
      nlinarith [h6]
    · rw [max_eq_left hab]
      nlinarith [h6]

/-- The regula-falsi loop, run on a bracket whose endpoint values satisfy
`f(a)·f(b) ≤ 0` with `f(b) ≠ 0`, never divides by zero, keeps every
estimate inside `[lo, hi]`, and returns normally with a stopping test
satisfied at the root or the cap exhausted. -/
theorem regulaLoop_bracket (F : ℚ → ℚ) (tol : ℚ) (M : ℤ) (lo hi : ℚ) :
    ∀ (rem : ℕ) (a b : ℚ) (it : ℕ) (acc : List IterRec) (last : Option (ℚ × ℚ)),
      lo ≤ a → a ≤ hi → lo ≤ b → b ≤ hi →
      F a * F b ≤ 0 → F b ≠ 0 →
      (∀ c e, last = some (c, e) → lo ≤ c ∧ c ≤ hi) →
      (1 ≤ rem ∨ last.isSome) →
      ∃ res, regulaLoop (totalFn F) tol M rem a b (F a) (F b) it acc last = .ok res ∧
        lo ≤ res.root ∧ res.root ≤ hi ∧
        (res.error < tol ∨ |F res.root| < tol ∨ res.iterations_used = M) := by
  intro rem
  induction rem with
  | zero =>
      intro a b it acc last hla hah hlb hbh hfab hfb hlast hfuel
      rcases last with _ | ⟨c, e⟩
      · rcases hfuel with h | h
        · omega
        · simp at h
      · obtain ⟨h1, h2⟩ := hlast c e rfl
        exact ⟨⟨acc, c, e, M⟩, by simp [regulaLoop], h1, h2, Or.inr (Or.inr rfl)⟩
  | succ rem ih =>
      intro a b it acc last hla hah hlb hbh hfab hfb hlast hfuel
      have hd : F b - F a ≠ 0 := by
        intro h
        have heq : F a = F b := by linarith
        rw [heq] at hfab
        have h0 : F b * F b = 0 := le_antisymm hfab (mul_self_nonneg _)
        exact hfb (mul_self_eq_zero.mp h0)
      have hc : ((a * F b - b * F a) / (F b - F a)) * (F b - F a) = a * F b - b * F a :=
        div_mul_cancel₀ _ hd
      obtain ⟨hclo', hchi'⟩ :=
        regula_c_bounds a b (F a) (F b) ((a * F b - b * F a) / (F b - F a)) hfab hd hc
      have hcl : lo ≤ (a * F b - b * F a) / (F b - F a) := le_trans (le_min hla hlb) hclo'
      have hch : (a * F b - b * F a) / (F b - F a) ≤ hi := le_trans hchi' (max_le hah hbh)
      simp only [regulaLoop, totalFn]
      rw [if_neg hd]
      by_cases hstop : |F ((a * F b - b * F a) / (F b - F a))| < tol ∨
          |F ((a * F b - b * F a) / (F b - F a))| < tol
      · rw [if_pos hstop]
        refine ⟨_, rfl, hcl, hch, ?_⟩
        rcases hstop with h | h
        · exact Or.inr (Or.inl h)
        · exact Or.inr (Or.inl h)
      · rw [if_neg hstop]
        by_cases hsign : F a * F ((a * F b - b * F a) / (F b - F a)) < 0
        · rw [if_pos hsign]
          have hfc : F ((a * F b - b * F a) / (F b - F a)) ≠ 0 := by
            intro h
            rw [h, mul_zero] at hsign
            exact lt_irrefl 0 hsign
          exact ih a ((a * F b - b * F a) / (F b - F a)) (it + 1) _ _ hla hah hcl hch
            (le_of_lt hsign) hfc
            (by intro c e heq; cases heq; exact ⟨hcl, hch⟩) (Or.inr rfl)
        · rw [if_neg hsign]
          have hge : 0 ≤ F a * F ((a * F b - b * F a) / (F b - F a)) := not_lt.mp hsign
          by_cases hfa0 : F a = 0
          · have hca : (a * F b - b * F a) / (F b - F a) = a := by
              rw [hfa0]
              field_simp
            exact ih ((a * F b - b * F a) / (F b - F a)) b (it + 1) _ _ hcl hch hlb hbh
              (by rw [hca]; exact hfab) hfb
              (by intro c e heq; cases heq; exact ⟨hcl, hch⟩) (Or.inr rfl)
          · have hlt : F a * F b < 0 := by
              rcases lt_or_eq_of_le hfab with h | h
              · exact h
              · exfalso
                rcases mul_eq_zero.mp h with h' | h'
                · exact hfa0 h'
                · exact hfb h'
            have h1 : (F a * F ((a * F b - b * F a) / (F b - F a))) * (F a * F b) ≤ 0 := by
              nlinarith [hge, hlt]
            have hfa2 : (0 : ℚ) < F a ^ 2 := by positivity
            have hkey : F ((a * F b - b * F a) / (F b - F a)) * F b ≤ 0 := by
              nlinarith [h1, hfa2]
            exact ih ((a * F b - b * F a) / (F b - F a)) b (it + 1) _ _ hcl hch hlb hbh
              hkey hfb
              (by intro c e heq; cases heq; exact ⟨hcl, hch⟩) (Or.inr rfl)

/-- C3 (amended): for every valid bracket (`f(a)·f(b) < 0`, evaluable `f`)
and positive cap, bisection and regula falsi return normally — no division
by zero, no other error — with a root inside the original
`[min(a,b), max(a,b)]`, and on return either `error < tol`, or
`|f(root)| < tol`, or the iteration cap was exhausted
(`iterations_used = max_iter`); the stopping criterion itself is not
guaranteed when the cap runs out first (see the counterexample). -/
theorem c3_bracket_containment :
    (∀ (F : ℚ → ℚ) (a b tol : ℚ) (M : ℤ), 1 ≤ M → F a * F b < 0 →
        ∃ res, bisection (totalFn F) a b tol M = .ok res ∧
          min a b ≤ res.root ∧ res.root ≤ max a b ∧
          (res.error < tol ∨ |F res.root| < tol ∨ res.iterations_used = M)) ∧
    (∀ (F : ℚ → ℚ) (a b tol : ℚ) (M : ℤ), 1 ≤ M → F a * F b < 0 →
        ∃ res, regula_falsi (totalFn F) a b tol M = .ok res ∧
          min a b ≤ res.root ∧ res.root ≤ max a b ∧
          (res.error < tol ∨ |F res.root| < tol ∨ res.iterations_used = M)) := by
  constructor
  · intro F a b tol M hM hbr
    simp only [bisection, totalFn]
    rw [if_neg (not_le.mpr hbr)]
    exact bisectionLoop_bracket F tol M (min a b) (max a b) M.toNat a b (F a) (F b) 1 [] none
      (min_le_left a b) (le_max_left a b) (min_le_right a b) (le_max_right a b)
      (by intro c e h; simp at h) (Or.inl (by omega))
  · intro F a b tol M hM hbr
    have hfb : F b ≠ 0 := by
      intro h
      rw [h, mul_zero] at hbr
      exact lt_irrefl 0 hbr
    simp only [regula_falsi, totalFn]
    rw [if_neg (not_le.mpr hbr)]
    exact regulaLoop_bracket F tol M (min a b) (max a b) M.toNat a b 1 [] none
      (min_le_left a b) (le_max_left a b) (min_le_right a b) (le_max_right a b)
      (le_of_lt hbr) hfb (by intro c e h; simp at h) (Or.inl (by omega))

/-- Witness for C3 (amended): `f(x) = x` on the bracket `[-1, 1]` with
`tol = 1` and one iteration, for both methods. -/
theorem c3_bracket_containment_witness :
    (∃ res, bisection (totalFn (fun q => q)) (-1) 1 1 1 = .ok res ∧
      min (-1 : ℚ) 1 ≤ res.root ∧ res.root ≤ max (-1 : ℚ) 1 ∧
      (res.error < 1 ∨ |res.root| < 1 ∨ res.iterations_used = 1)) ∧
    (∃ res, regula_falsi (totalFn (fun q => q)) (-1) 1 1 1 = .ok res ∧
      min (-1 : ℚ) 1 ≤ res.root ∧ res.root ≤ max (-1 : ℚ) 1 ∧
      (res.error < 1 ∨ |res.root| < 1 ∨ res.iterations_used = 1)) :=
  ⟨c3_bracket_containment.1 (fun q => q) (-1) 1 1 1 (by norm_num) (by norm_num),
   c3_bracket_containment.2 (fun q => q) (-1) 1 1 1 (by norm_num) (by norm_num)⟩
